import Mathlib

set_option linter.unusedSectionVars false

/-!
Shallow embedding of the MyCache C++ cache library: the `LruCache`,
`KLruKCache`, `LfuCache`, `ArcLruCache`, `ArcLfuCache` and `ArcCache`
engines, translated operation by operation from the source headers.

Modelling conventions used throughout:
* `std::unordered_map` index plus intrusive doubly-linked list pairs are
  collapsed into a single Lean list whenever the source keeps both
  structures in lockstep (LRU engines); when the source can drive the two
  structures out of sync (the non-ARC `LfuCache`, whose `kickOut` can erase
  a map entry without touching the frequency lists) the map and the bucket
  table are modelled separately, exactly as the source updates them.
* machine integers become `Int` (for the `int` counters of `LfuCache`,
  with C++ truncating division modelled by `Int.tdiv`) or `Nat` (for the
  `size_t` counters of the ARC caches).
* each C++ member function becomes one Lean function with the same name;
  mutation becomes explicit state passing.
* a node's key/value/accessCount triple is a Lean tuple; the dummy
  head/tail sentinel nodes of the intrusive lists are implicit in the list
  representation, except where the source actually reads a sentinel's
  fields (`LfuCache::kickOut` on an empty minimum bucket), which is
  modelled explicitly.
-/

namespace CacheSys

variable {K V : Type} [DecidableEq K]

/-- Remove the first occurrence of a key from a plain key list
(ghost lists store bare keys). -/
def eraseKey : List K → K → List K
  | [], _ => []
  | x :: xs, k => if x = k then xs else x :: eraseKey xs k

/-! ## LruCache

State: recency list (least-recently-used first, most-recently-used last,
matching the source's `dummyHead_ → LRU … MRU ← dummyTail_` order) plus the
`int capacity_`.  The `nodeMap_` index always holds exactly the listed
nodes, so the list is the single source of truth. -/

structure LruCache (K V : Type) where
  capacity : Int
  entries : List (K × V)
  deriving Repr, DecidableEq

/-- `nodeMap_.find(key)` -/
def lruFind (s : LruCache K V) (k : K) : Option V :=
  (s.entries.find? (fun p => decide (p.1 = k))).map Prod.snd

/-- erase a key from the recency list (and implicitly from the index) -/
def lruEraseKey (l : List (K × V)) (k : K) : List (K × V) :=
  l.filter (fun p => !decide (p.1 = k))

/-- `LruCache::put` -/
def lruPut (k : K) (v : V) (s : LruCache K V) : LruCache K V :=
  if s.capacity ≤ 0 then s
  else
    match lruFind s k with
    | some _ =>
        -- updateExistingNode: set the value, detach, re-insert at the MRU end
        { s with entries := lruEraseKey s.entries k ++ [(k, v)] }
    | none =>
        -- addNewNode: evict the node adjacent to the head when at capacity
        let afterEvict :=
          if (s.entries.length : Int) ≥ s.capacity then s.entries.tail else s.entries
        { s with entries := afterEvict ++ [(k, v)] }

/-- `LruCache::get(key, value&)`: on a hit the node moves to the MRU end. -/
def lruGet (k : K) (s : LruCache K V) : Option V × LruCache K V :=
  match lruFind s k with
  | some v => (some v, { s with entries := lruEraseKey s.entries k ++ [(k, v)] })
  | none => (none, s)

/-- `LruCache::remove` -/
def lruRemove (k : K) (s : LruCache K V) : LruCache K V :=
  { s with entries := lruEraseKey s.entries k }

/-- a freshly constructed `LruCache(capacity)` -/
def lruInit (capacity : Int) : LruCache K V :=
  { capacity := capacity, entries := [] }

/-- One public operation on an `LruCache`. -/
inductive LruOp (K V : Type) where
  | put (k : K) (v : V)
  | get (k : K)
  | remove (k : K)

def lruStep (op : LruOp K V) (s : LruCache K V) : LruCache K V :=
  match op with
  | .put k v => lruPut k v s
  | .get k => (lruGet k s).2
  | .remove k => lruRemove k s

def lruRun (ops : List (LruOp K V)) (s : LruCache K V) : LruCache K V :=
  ops.foldl (fun s op => lruStep op s) s

/-! ## KLruKCache (LRU-K wrapper)

State: the inherited main `LruCache`, the `historyList_` counting cache
(`LruCache<Key, size_t>`), the `historyValueMap_`, and the threshold `k_`. -/

structure KLruKCache (K V : Type) where
  main : LruCache K V
  history : LruCache K Nat
  historyValueMap : List (K × V)
  k : Nat
  deriving Repr, DecidableEq

def klrukInit (capacity historyCapacity : Int) (k : Nat) : KLruKCache K V :=
  { main := lruInit capacity, history := lruInit historyCapacity,
    historyValueMap := [], k := k }

/-- `KLruKCache::get(key)`.  Returns the produced value and the new state.
The `Value get(Key)` convenience form of the history cache yields `0`
on a miss (value-initialised `size_t`). -/
def klrukGet [Inhabited V] (key : K) (s : KLruKCache K V) : V × KLruKCache K V :=
  let m := lruGet key s.main
  let inMainCache := m.1.isSome
  let value := m.1.getD default
  let h := lruGet key s.history
  let historyCount := h.1.getD 0 + 1
  let hist2 := lruPut key historyCount h.2
  if inMainCache then
    (value, { s with main := m.2, history := hist2 })
  else if historyCount ≥ s.k then
    match s.historyValueMap.find? (fun p => decide (p.1 = key)) with
    | some pr =>
        (pr.2, { main := lruPut key pr.2 m.2,
                 history := lruRemove key hist2,
                 historyValueMap := s.historyValueMap.filter (fun p => !decide (p.1 = key)),
                 k := s.k })
    | none => (value, { s with main := m.2, history := hist2 })
  else
    (value, { s with main := m.2, history := hist2 })

/-- `KLruKCache::put(key, value)` -/
def klrukPut (key : K) (v : V) (s : KLruKCache K V) : KLruKCache K V :=
  let m := lruGet key s.main
  if m.1.isSome then
    { s with main := lruPut key v m.2 }
  else
    let h := lruGet key s.history
    let historyCount := h.1.getD 0 + 1
    let hist2 := lruPut key historyCount h.2
    let hvm1 := (key, v) :: s.historyValueMap.filter (fun p => !decide (p.1 = key))
    if historyCount ≥ s.k then
      { main := lruPut key v m.2,
        history := lruRemove key hist2,
        historyValueMap := hvm1.filter (fun p => !decide (p.1 = key)),
        k := s.k }
    else
      { s with main := m.2, history := hist2, historyValueMap := hvm1 }

/-- does the main cache of the wrapper hold `key`? -/
def klrukInMain (s : KLruKCache K V) (key : K) : Bool :=
  (lruFind s.main key).isSome

/-! ## LfuCache

State, following the source fields: `int capacity_`, `int minFreq_`
(initialised to `INT8_MAX`, i.e. `127`), `int maxAverageNum_`,
`int curAverageNum_`, `int curTotalNum_`, the index `nodeMap_` (key →
node, the node carrying its current frequency) and the bucket table
`freqToFreqList_` (frequency → FIFO list of node keys).  `FreqList`
objects are allocated on demand and never deleted, so emptied buckets
persist in the table; the model mirrors this by keeping entries with an
empty key list.  The iteration order of the two `std::unordered_map`s is
unspecified in C++; the model fixes insertion order. -/

structure LfuCache (K V : Type) where
  capacity : Int
  minFreq : Int
  maxAverageNum : Int
  curAverageNum : Int
  curTotalNum : Int
  nodeMap : List (K × V × Int)
  buckets : List (Int × List K)
  deriving Repr, DecidableEq

/-- `nodeMap_.find(key)`, returning the node's value and frequency -/
def lfuFind (m : List (K × V × Int)) (k : K) : Option (V × Int) :=
  (m.find? (fun p => decide (p.1 = k))).map Prod.snd

def lfuEraseNode (m : List (K × V × Int)) (k : K) : List (K × V × Int) :=
  m.filter (fun p => !decide (p.1 = k))

/-- overwrite the frequency stored in a node -/
def lfuSetFreq (m : List (K × V × Int)) (k : K) (f : Int) : List (K × V × Int) :=
  m.map (fun p => if p.1 = k then (p.1, p.2.1, f) else p)

/-- `it->second->value = value` -/
def lfuSetValue (m : List (K × V × Int)) (k : K) (v : V) : List (K × V × Int) :=
  m.map (fun p => if p.1 = k then (p.1, v, p.2.2) else p)

/-- the key/value association stored in the index, forgetting frequencies -/
def lfuKV (m : List (K × V × Int)) : List (K × V) :=
  m.map (fun p => (p.1, p.2.1))

/-- the value currently associated with `k`, if any -/
def lfuValOf (m : List (K × V × Int)) (k : K) : Option V :=
  (lfuFind m k).map Prod.fst

/-- `freqToFreqList_.find(f)` -/
def bucketFind (bs : List (Int × List K)) (f : Int) : Option (List K) :=
  (bs.find? (fun b => decide (b.1 = f))).map Prod.snd

/-- overwrite the key list of the bucket for frequency `f` -/
def bucketSet (bs : List (Int × List K)) (f : Int) (l : List K) : List (Int × List K) :=
  bs.map (fun b => if b.1 = f then (f, l) else b)

/-- `LfuCache::addToFreqList`: create the `FreqList` for `node->freq` when
absent, then `addNode` appends just before the dummy tail. -/
def addToFreqList (bs : List (Int × List K)) (f : Int) (k : K) : List (Int × List K) :=
  match bucketFind bs f with
  | some l => bucketSet bs f (l ++ [k])
  | none => bs ++ [(f, [k])]

/-- `LfuCache::removeFromFreqList`: `freqToFreqList_[node->freq]` (the
`operator[]` creates the table entry when absent; on that branch the source
would dereference a null `FreqList*`, which is unreachable for nodes that
went through `addToFreqList`) and unlink the node. -/
def removeFromFreqList (bs : List (Int × List K)) (f : Int) (k : K) : List (Int × List K) :=
  match bucketFind bs f with
  | some l => bucketSet bs f (l.filter (fun x => !decide (x = k)))
  | none => bs ++ [(f, [])]

/-- `LfuCache::updateMinFreq`: reset `minFreq_` to `INT8_MAX` (127), take the
minimum over the non-empty buckets, and fall back to `1` when the result is
still `INT8_MAX` — also when a non-empty bucket's frequency is ≥ 127. -/
def updateMinFreq (s : LfuCache K V) : LfuCache K V :=
  let m := s.buckets.foldl (fun acc b => if b.2.isEmpty then acc else min acc b.1) 127
  { s with minFreq := if m = 127 then 1 else m }

/-- loop body of `handleOverMaxAverageNum` for one node `p`: unlink it from
its bucket, subtract `maxAverageNum_ / 2` from its frequency (clamping at
1) and re-link it -/
def ageNode (half : Int) (acc : LfuCache K V) (p : K × V × Int) : LfuCache K V :=
  let f1 := p.2.2 - half
  let f2 := if f1 < 1 then 1 else f1
  { acc with
      buckets := addToFreqList (removeFromFreqList acc.buckets p.2.2 p.1) f2 p.1,
      nodeMap := lfuSetFreq acc.nodeMap p.1 f2 }

/-- `LfuCache::handleOverMaxAverageNum`: global aging pass.  Every node's
frequency drops by `maxAverageNum_ / 2` (clamped to 1) and the node is
re-bucketed, then `minFreq_` is recomputed. -/
def handleOverMaxAverageNum (s : LfuCache K V) : LfuCache K V :=
  if s.nodeMap.isEmpty then s
  else updateMinFreq (s.nodeMap.foldl (ageNode (s.maxAverageNum.tdiv 2)) s)

/-- `LfuCache::addFreqNum`: bump the hit total, recompute the average with
C++ truncating `int` division, and run the aging pass when it exceeds
`maxAverageNum_`. -/
def addFreqNum (s : LfuCache K V) : LfuCache K V :=
  let t := s.curTotalNum + 1
  let avg := if s.nodeMap.isEmpty then 0 else t.tdiv (s.nodeMap.length : Int)
  let s1 := { s with curTotalNum := t, curAverageNum := avg }
  if avg > s.maxAverageNum then handleOverMaxAverageNum s1 else s1

/-- `LfuCache::decreaseFreqNum` -/
def decreaseFreqNum (n : Int) (s : LfuCache K V) : LfuCache K V :=
  let t := s.curTotalNum - n
  { s with curTotalNum := t,
           curAverageNum := if s.nodeMap.isEmpty then 0 else t.tdiv (s.nodeMap.length : Int) }

/-- `LfuCache::getInternal` on a node with current frequency `f`:
move the node to the next bucket, bump `minFreq_` when the old minimum
bucket drained, then update the global counters. -/
def getInternal (k : K) (f : Int) (s : LfuCache K V) : LfuCache K V :=
  let s1 := { s with
    buckets := addToFreqList (removeFromFreqList s.buckets f k) (f + 1) k,
    nodeMap := lfuSetFreq s.nodeMap k (f + 1) }
  let s2 :=
    if f == s1.minFreq && ((bucketFind s1.buckets f).getD []).isEmpty then
      { s1 with minFreq := s1.minFreq + 1 }
    else s1
  addFreqNum s2

/-- `LfuCache::kickOut`: evict the first node of the `minFreq_` bucket.
When that bucket exists but is empty, `getFirstNode()` returns the bucket's
dummy tail node — a default-constructed node with `freq = 1` and a
default-initialised key (modelled as `default`); `removeNode` on it is a
no-op, so only `nodeMap_.erase(defaultKey)` and `decreaseFreqNum(1)`
happen and nothing leaves the cache. -/
def kickOut [Inhabited K] (s : LfuCache K V) : LfuCache K V :=
  match bucketFind s.buckets s.minFreq with
  | some (kk :: _) =>
      let f :=
        match lfuFind s.nodeMap kk with
        | some pr => pr.2
        | none => s.minFreq   -- an orphaned node's freq equals its bucket's freq
      decreaseFreqNum f
        { s with buckets := removeFromFreqList s.buckets f kk,
                 nodeMap := lfuEraseNode s.nodeMap kk }
  | some [] =>
      decreaseFreqNum 1 { s with nodeMap := lfuEraseNode s.nodeMap default }
  | none => s   -- null `FreqList*` dereference in the source; unreachable

/-- `LfuCache::putInternal`: evict when full, insert the node with
frequency 1, update the counters, lower `minFreq_` to 1. -/
def putInternal [Inhabited K] (k : K) (v : V) (s : LfuCache K V) : LfuCache K V :=
  let s1 := if (s.nodeMap.length : Int) = s.capacity then kickOut s else s
  let s2 := { s1 with nodeMap := s1.nodeMap ++ [(k, v, 1)],
                      buckets := addToFreqList s1.buckets 1 k }
  let s3 := addFreqNum s2
  { s3 with minFreq := min s3.minFreq 1 }

/-- `LfuCache::put` -/
def lfuPut [Inhabited K] (k : K) (v : V) (s : LfuCache K V) : LfuCache K V :=
  if s.capacity = 0 then s
  else
    match lfuFind s.nodeMap k with
    | some pr => getInternal k pr.2 { s with nodeMap := lfuSetValue s.nodeMap k v }
    | none => putInternal k v s

/-- `LfuCache::get(key, value&)` -/
def lfuGet (k : K) (s : LfuCache K V) : Option V × LfuCache K V :=
  match lfuFind s.nodeMap k with
  | some pr => (some pr.1, getInternal k pr.2 s)
  | none => (none, s)

/-- a freshly constructed `LfuCache(capacity, maxAverageNum)` -/
def lfuInit (capacity maxAverageNum : Int) : LfuCache K V :=
  { capacity := capacity, minFreq := 127, maxAverageNum := maxAverageNum,
    curAverageNum := 0, curTotalNum := 0, nodeMap := [], buckets := [] }

/-- One public operation on an `LfuCache`. -/
inductive LfuOp (K V : Type) where
  | put (k : K) (v : V)
  | get (k : K)

def lfuStep [Inhabited K] (op : LfuOp K V) (s : LfuCache K V) : LfuCache K V :=
  match op with
  | .put k v => lfuPut k v s
  | .get k => (lfuGet k s).2

def lfuRun [Inhabited K] (ops : List (LfuOp K V)) (s : LfuCache K V) : LfuCache K V :=
  ops.foldl (fun s op => lfuStep op s) s

/-! ## ArcLruCache (T1 side of ARC)

State: `size_t capacity_`, `size_t ghostCapacity_` (fixed at construction),
`size_t transformThreshold_`, the live list (`mainHead_ → MRU … LRU ←
mainTail_`; insertion at the head side) with its index `mainCache_`, and the
ghost list (`addToGhost` inserts behind `ghostHead_`, eviction takes
`ghostTail_->prev_`) with its index `ghostCache_`.  The live list is stored
MRU first; the ghost list most-recently-demoted first. -/

structure ArcLru (K V : Type) where
  capacity : Nat
  ghostCapacity : Nat
  transformThreshold : Nat
  main : List (K × V × Nat)
  ghost : List K
  deriving Repr, DecidableEq

def arcLruInit (capacity transformThreshold : Nat) : ArcLru K V :=
  { capacity := capacity, ghostCapacity := capacity,
    transformThreshold := transformThreshold, main := [], ghost := [] }

/-- `mainCache_.find(key)`: value and access count of the live node -/
def arcLruFind (s : ArcLru K V) (k : K) : Option (V × Nat) :=
  (s.main.find? (fun p => decide (p.1 = k))).map Prod.snd

def arcLruMainErase (m : List (K × V × Nat)) (k : K) : List (K × V × Nat) :=
  m.filter (fun p => !decide (p.1 = k))

def arcLruMainKeys (s : ArcLru K V) : List K :=
  s.main.map Prod.fst

/-- `ArcLruCache::evictLeastRecent`: unlink `mainTail_->prev_` (no-op on an
empty list), make room in the ghost list when it is at `ghostCapacity_`
(`removeOldestGhost` is itself a no-op on an empty ghost list), then add the
victim's key at the ghost head. -/
def arcLruEvictLeastRecent (s : ArcLru K V) : ArcLru K V :=
  match s.main.getLast? with
  | none => s
  | some victim =>
      let ghost1 :=
        if s.ghost.length ≥ s.ghostCapacity then s.ghost.dropLast else s.ghost
      { s with main := s.main.dropLast, ghost := victim.1 :: ghost1 }

/-- `ArcLruCache::put` (returns the `bool` result) -/
def arcLruPut (k : K) (v : V) (s : ArcLru K V) : Bool × ArcLru K V :=
  if s.capacity = 0 then (false, s)
  else
    match arcLruFind s k with
    | some pr =>
        -- updateExistingNode: new value, move to front; the access count is untouched
        (true, { s with main := (k, v, pr.2) :: arcLruMainErase s.main k })
    | none =>
        let s1 := if s.main.length ≥ s.capacity then arcLruEvictLeastRecent s else s
        (true, { s1 with main := (k, v, 1) :: s1.main })

/-- `ArcLruCache::get(key, value&, shouldTransform&)`: on a hit the node
moves to the front, its access count is incremented, and `shouldTransform`
reports whether the count reached `transformThreshold_`. -/
def arcLruGet (k : K) (s : ArcLru K V) : Option (V × Bool) × ArcLru K V :=
  match arcLruFind s k with
  | some pr =>
      (some (pr.1, pr.2 + 1 ≥ s.transformThreshold),
       { s with main := (k, pr.1, pr.2 + 1) :: arcLruMainErase s.main k })
  | none => (none, s)

/-- `ArcLruCache::checkGhost` -/
def arcLruCheckGhost (k : K) (s : ArcLru K V) : Bool × ArcLru K V :=
  if s.ghost.any (fun x => decide (x = k)) then
    (true, { s with ghost := eraseKey s.ghost k })
  else (false, s)

/-- `ArcLruCache::increaseCapacity` -/
def arcLruIncreaseCapacity (s : ArcLru K V) : ArcLru K V :=
  { s with capacity := s.capacity + 1 }

/-- `ArcLruCache::decreaseCapacity` -/
def arcLruDecreaseCapacity (s : ArcLru K V) : Bool × ArcLru K V :=
  if s.capacity = 0 then (false, s)
  else
    let s1 := if s.main.length = s.capacity then arcLruEvictLeastRecent s else s
    (true, { s1 with capacity := s1.capacity - 1 })

/-! ## ArcLfuCache (T2 side of ARC)

State: `size_t capacity_`, `size_t ghostCapacity_`, `size_t
transformThreshold_`, `size_t minFreq_` (initialised to 0), the frequency
table `freqMap_` (`std::map`, i.e. kept sorted by frequency; each bucket a
FIFO `std::list` of nodes) with the index `mainCache_` always holding
exactly the bucketed nodes, and the ghost list (`addToGhost` appends before
`ghostTail_`, `removeOldestGhost` takes `ghostHead_->next_`), stored oldest
first.  Unlike the non-ARC LFU, emptied buckets are erased from the map. -/

structure ArcLfu (K V : Type) where
  capacity : Nat
  ghostCapacity : Nat
  transformThreshold : Nat
  minFreq : Nat
  buckets : List (Nat × List (K × V × Nat))
  ghost : List K
  deriving Repr, DecidableEq

def arcLfuInit (capacity transformThreshold : Nat) : ArcLfu K V :=
  { capacity := capacity, ghostCapacity := capacity,
    transformThreshold := transformThreshold, minFreq := 0,
    buckets := [], ghost := [] }

/-- `freqMap_.find(f)` -/
def arcBucketFind (bs : List (Nat × List (K × V × Nat))) (f : Nat) :
    Option (List (K × V × Nat)) :=
  (bs.find? (fun b => decide (b.1 = f))).map Prod.snd

/-- overwrite the node list of the bucket for frequency `f` -/
def arcBucketSet (bs : List (Nat × List (K × V × Nat))) (f : Nat)
    (l : List (K × V × Nat)) : List (Nat × List (K × V × Nat)) :=
  bs.map (fun b => if b.1 = f then (f, l) else b)

/-- `freqMap_.erase(f)` -/
def arcBucketErase (bs : List (Nat × List (K × V × Nat))) (f : Nat) :
    List (Nat × List (K × V × Nat)) :=
  bs.filter (fun b => !decide (b.1 = f))

/-- insert a fresh frequency entry at its sorted position (`std::map`
keeps keys ordered; used only when `f` is absent) -/
def arcBucketInsertNew (bs : List (Nat × List (K × V × Nat))) (f : Nat)
    (l : List (K × V × Nat)) : List (Nat × List (K × V × Nat)) :=
  match bs with
  | [] => [(f, l)]
  | b :: rest => if f < b.1 then (f, l) :: b :: rest
                 else b :: arcBucketInsertNew rest f l

/-- `freqMap_[f].push_back(node)` (the `operator[]` creates the bucket when
absent) -/
def arcBucketPushBack (bs : List (Nat × List (K × V × Nat))) (f : Nat)
    (p : K × V × Nat) : List (Nat × List (K × V × Nat)) :=
  match arcBucketFind bs f with
  | some l => arcBucketSet bs f (l ++ [p])
  | none => arcBucketInsertNew bs f [p]

/-- all nodes of a bucket table, in bucket order -/
def arcNodes (bs : List (Nat × List (K × V × Nat))) : List (K × V × Nat) :=
  (bs.map Prod.snd).flatten

/-- `mainCache_.find(key)`: value and access count -/
def arcLfuFind (s : ArcLfu K V) (k : K) : Option (V × Nat) :=
  ((s.buckets.map Prod.snd).flatten.find? (fun p => decide (p.1 = k))).map Prod.snd

def arcLfuKeys (s : ArcLfu K V) : List K :=
  (s.buckets.map Prod.snd).flatten.map Prod.fst

/-- `mainCache_.size()` -/
def arcLfuSize (s : ArcLfu K V) : Nat :=
  (s.buckets.map (fun b => b.2.length)).sum

/-- `ArcLfuCache::updateNodeFrequency` on a node with current count `c`
whose value has just been set to `v`: move it from bucket `c` to bucket
`c + 1`, erasing the old bucket when it drains and advancing `minFreq_`
when the drained bucket was the minimum. -/
def arcLfuUpdateNodeFrequency (k : K) (v : V) (c : Nat) (s : ArcLfu K V) : ArcLfu K V :=
  let newFreq := c + 1
  -- `freqMap_[oldFreq]` creates an empty bucket when absent (unreachable
  -- for nodes inserted through the interface)
  let bs0 :=
    match arcBucketFind s.buckets c with
    | some _ => s.buckets
    | none => arcBucketInsertNew s.buckets c []
  let l1 := ((arcBucketFind bs0 c).getD []).filter (fun p => !decide (p.1 = k))
  let bs1 := if l1.isEmpty then arcBucketErase bs0 c else arcBucketSet bs0 c l1
  let minFreq1 := if l1.isEmpty && decide (c = s.minFreq) then newFreq else s.minFreq
  { s with buckets := arcBucketPushBack bs1 newFreq (k, v, newFreq),
           minFreq := minFreq1 }

/-- `ArcLfuCache::evictLeastFrequent`: pop the front of the `minFreq_`
bucket, erase the bucket when it drains (then `minFreq_ :=
freqMap_.begin()->first`, the smallest remaining frequency), rotate the
ghost list if it is at `ghostCapacity_`, and append the victim's key at the
ghost tail.  `freqMap_[minFreq_]` creates an empty bucket when the minimum
frequency is not present (again unreachable through the interface). -/
def arcLfuEvictLeastFrequent (s : ArcLfu K V) : ArcLfu K V :=
  if s.buckets.isEmpty then s
  else
    match arcBucketFind s.buckets s.minFreq with
    | none => { s with buckets := arcBucketInsertNew s.buckets s.minFreq [] }
    | some [] => s
    | some (victim :: rest) =>
        let bs1 := if rest.isEmpty then arcBucketErase s.buckets s.minFreq
                   else arcBucketSet s.buckets s.minFreq rest
        let minFreq1 :=
          if rest.isEmpty then
            match bs1.head? with
            | some b => b.1
            | none => s.minFreq
          else s.minFreq
        let ghost1 :=
          if s.ghost.length ≥ s.ghostCapacity then s.ghost.tail else s.ghost
        { s with buckets := bs1, minFreq := minFreq1, ghost := ghost1 ++ [victim.1] }

/-- `ArcLfuCache::addNewNode` -/
def arcLfuAddNewNode (k : K) (v : V) (s : ArcLfu K V) : ArcLfu K V :=
  let s1 := if arcLfuSize s ≥ s.capacity then arcLfuEvictLeastFrequent s else s
  { s1 with buckets := arcBucketPushBack s1.buckets 1 (k, v, 1), minFreq := 1 }

/-- `ArcLfuCache::put` -/
def arcLfuPut (k : K) (v : V) (s : ArcLfu K V) : Bool × ArcLfu K V :=
  if s.capacity = 0 then (false, s)
  else
    match arcLfuFind s k with
    | some pr => (true, arcLfuUpdateNodeFrequency k v pr.2 s)
    | none => (true, arcLfuAddNewNode k v s)

/-- `ArcLfuCache::get(key, value&)` -/
def arcLfuGet (k : K) (s : ArcLfu K V) : Option V × ArcLfu K V :=
  match arcLfuFind s k with
  | some pr => (some pr.1, arcLfuUpdateNodeFrequency k pr.1 pr.2 s)
  | none => (none, s)

/-- `ArcLfuCache::checkGhost` -/
def arcLfuCheckGhost (k : K) (s : ArcLfu K V) : Bool × ArcLfu K V :=
  if s.ghost.any (fun x => decide (x = k)) then
    (true, { s with ghost := eraseKey s.ghost k })
  else (false, s)

/-- `ArcLfuCache::increaseCapacity` -/
def arcLfuIncreaseCapacity (s : ArcLfu K V) : ArcLfu K V :=
  { s with capacity := s.capacity + 1 }

/-- `ArcLfuCache::decreaseCapacity` -/
def arcLfuDecreaseCapacity (s : ArcLfu K V) : Bool × ArcLfu K V :=
  if s.capacity = 0 then (false, s)
  else
    let s1 := if arcLfuSize s = s.capacity then arcLfuEvictLeastFrequent s else s
    (true, { s1 with capacity := s1.capacity - 1 })

/-! ## ArcCache (coordinator) -/

structure ArcCache (K V : Type) where
  lru : ArcLru K V
  lfu : ArcLfu K V
  deriving Repr, DecidableEq

def arcInit (capacity transformThreshold : Nat) : ArcCache K V :=
  { lru := arcLruInit capacity transformThreshold,
    lfu := arcLfuInit capacity transformThreshold }

/-- `ArcCache::checkGhostCaches`: consult the T1 ghost first; on a hit
shrink the other side and, if that succeeded, grow this side.  The T2
ghost is consulted only when the T1 ghost missed. -/
def checkGhostCaches (k : K) (s : ArcCache K V) : Bool × ArcCache K V :=
  let c1 := arcLruCheckGhost k s.lru
  if c1.1 then
    let d := arcLfuDecreaseCapacity s.lfu
    let lru2 := if d.1 then arcLruIncreaseCapacity c1.2 else c1.2
    (true, { lru := lru2, lfu := d.2 })
  else
    let c2 := arcLfuCheckGhost k s.lfu
    if c2.1 then
      let d := arcLruDecreaseCapacity c1.2
      let lfu2 := if d.1 then arcLfuIncreaseCapacity c2.2 else c2.2
      (true, { lru := d.2, lfu := lfu2 })
    else (false, { lru := c1.2, lfu := c2.2 })

/-- `ArcCache::put` -/
def arcPut (k : K) (v : V) (s : ArcCache K V) : ArcCache K V :=
  let g := checkGhostCaches k s
  if !g.1 then
    let p1 := arcLruPut k v g.2.lru
    if p1.1 then
      { lru := p1.2, lfu := (arcLfuPut k v g.2.lfu).2 }
    else { g.2 with lru := p1.2 }
  else
    { g.2 with lru := (arcLruPut k v g.2.lru).2 }

/-- `ArcCache::get(key, value&)` -/
def arcGet (k : K) (s : ArcCache K V) : Option V × ArcCache K V :=
  let g := checkGhostCaches k s
  match arcLruGet k g.2.lru with
  | (some (v, shouldTransform), lru1) =>
      if shouldTransform then
        (some v, { lru := lru1, lfu := (arcLfuPut k v g.2.lfu).2 })
      else
        (some v, { g.2 with lru := lru1 })
  | (none, lru1) =>
      let r := arcLfuGet k g.2.lfu
      (r.1, { lru := lru1, lfu := r.2 })

/-! ## Operation alphabets for the ARC sub-caches

`ArcSubOp` is the public interface of one ARC sub-cache.  `arcLruStepRaw` /
`arcLfuStepRaw` apply an operation directly; `arcLruStepD` / `arcLfuStepD`
apply it under the coordinator's discipline, in which every `put key …` is
immediately preceded by `checkGhost key` (as `ArcCache::put` and
`ArcCache::get` always run `checkGhostCaches` first). -/

inductive ArcSubOp (K V : Type) where
  | put (k : K) (v : V)
  | get (k : K)
  | checkGhost (k : K)
  | increaseCapacity
  | decreaseCapacity

def arcLruStepRaw (op : ArcSubOp K V) (s : ArcLru K V) : ArcLru K V :=
  match op with
  | .put k v => (arcLruPut k v s).2
  | .get k => (arcLruGet k s).2
  | .checkGhost k => (arcLruCheckGhost k s).2
  | .increaseCapacity => arcLruIncreaseCapacity s
  | .decreaseCapacity => (arcLruDecreaseCapacity s).2

def arcLruStepD (op : ArcSubOp K V) (s : ArcLru K V) : ArcLru K V :=
  match op with
  | .put k v => (arcLruPut k v (arcLruCheckGhost k s).2).2
  | _ => arcLruStepRaw op s

def arcLruRunD (ops : List (ArcSubOp K V)) (s : ArcLru K V) : ArcLru K V :=
  ops.foldl (fun s op => arcLruStepD op s) s

def arcLfuStepRaw (op : ArcSubOp K V) (s : ArcLfu K V) : ArcLfu K V :=
  match op with
  | .put k v => (arcLfuPut k v s).2
  | .get k => (arcLfuGet k s).2
  | .checkGhost k => (arcLfuCheckGhost k s).2
  | .increaseCapacity => arcLfuIncreaseCapacity s
  | .decreaseCapacity => (arcLfuDecreaseCapacity s).2

def arcLfuStepD (op : ArcSubOp K V) (s : ArcLfu K V) : ArcLfu K V :=
  match op with
  | .put k v => (arcLfuPut k v (arcLfuCheckGhost k s).2).2
  | _ => arcLfuStepRaw op s

def arcLfuRunD (ops : List (ArcSubOp K V)) (s : ArcLfu K V) : ArcLfu K V :=
  ops.foldl (fun s op => arcLfuStepD op s) s

/-- Well-formedness of an `ArcLruCache` state: distinct live keys, distinct
ghost keys, live and ghost disjoint, live size within the live capacity and
ghost size within the ghost capacity (one ghost entry can exist even when
the ghost capacity is 0, since `evictLeastRecent` appends after the
guarded `removeOldestGhost`). -/
def ArcLruWF (s : ArcLru K V) : Prop :=
  (s.main.map Prod.fst).Nodup
  ∧ s.ghost.Nodup
  ∧ (∀ k, k ∈ s.main.map Prod.fst → k ∉ s.ghost)
  ∧ s.main.length ≤ s.capacity
  ∧ s.ghost.length ≤ max s.ghostCapacity 1

/-- Well-formedness of an `ArcLfuCache` state: distinct bucket
frequencies, no empty buckets, every node's counter equal to its bucket's
frequency, distinct live keys, distinct ghost keys, live and ghost
disjoint, live size within the live capacity, ghost size within the ghost
capacity (same 0-capacity proviso as for T1), and `minFreq_` pointing at
an existing bucket whenever the cache is non-empty. -/
def ArcLfuWF (s : ArcLfu K V) : Prop :=
  (s.buckets.map Prod.fst).Nodup
  ∧ (∀ b ∈ s.buckets, b.2 ≠ [])
  ∧ (∀ b ∈ s.buckets, ∀ p ∈ b.2, p.2.2 = b.1)
  ∧ (arcLfuKeys s).Nodup
  ∧ s.ghost.Nodup
  ∧ (∀ k, k ∈ arcLfuKeys s → k ∉ s.ghost)
  ∧ arcLfuSize s ≤ s.capacity
  ∧ s.ghost.length ≤ max s.ghostCapacity 1
  ∧ (¬ s.buckets = [] → s.minFreq ∈ s.buckets.map Prod.fst)

/-! ## Concrete scenario states used by the claim theorems -/

/-- LRU scenario (capacity 2): state after `put(1,"a"), put(2,"b")` -/
def lruScenA : LruCache Nat String :=
  lruPut 2 "b" (lruPut 1 "a" (lruInit 2))

/-- … after the additional `get(1)` -/
def lruScenB : LruCache Nat String := (lruGet 1 lruScenA).2

/-- … after the additional `put(3,"c")` -/
def lruScenC : LruCache Nat String := lruPut 3 "c" lruScenB

/-- LFU tie-break scenario (capacity 2, default `maxAverageNum = 10`):
state after `put(1,"a"), put(2,"b"), get(1)` -/
def lfuScenPre : LfuCache Nat String :=
  (lfuGet 1 (lfuPut 2 "b" (lfuPut 1 "a" (lfuInit 2 10)))).2

/-- … after the additional `put(3,"c")` at full capacity -/
def lfuScenA : LfuCache Nat String :=
  lfuPut 3 "c" lfuScenPre

def lfuScenB : LfuCache Nat String := (lfuGet 2 lfuScenA).2

def lfuScenC : LfuCache Nat String := (lfuGet 3 lfuScenB).2

/-- LFU aging run (capacity 1, `maxAverageNum = 252`): `put(1,10)` followed
by 252 hits on key 1.  The 252nd hit pushes the average to 253 > 252 and
triggers the aging pass: the node's frequency drops from 253 to
253 − 252/2 = 127 = `INT8_MAX`. -/
def lfuAged : LfuCache Nat Nat :=
  (fun s => (lfuGet 1 s).2)^[252] (lfuPut 1 10 (lfuInit 1 252))

/-- … and one further `put(2,20)` into the "full" cache -/
def lfuOverfull : LfuCache Nat Nat := lfuPut 2 20 lfuAged

/-- The state `lfuAged` spelled out: the single node has been aged from
frequency 253 down to 127; buckets 1..253 all exist (`FreqList` objects
persist) but only bucket 127 is inhabited; `updateMinFreq`'s `INT8_MAX`
sentinel has reset `minFreq_` to 1 even though bucket 1 is empty. -/
def lfuAgedLit : LfuCache Nat Nat :=
  { capacity := 1, minFreq := 1, maxAverageNum := 252,
    curAverageNum := 253, curTotalNum := 253,
    nodeMap := [(1, 10, 127)],
    buckets := (List.range 253).map
      (fun i => (((i : Int) + 1), if i = 126 then [1] else [])) }

/-- ARC scenario (capacity 2, threshold 2): after `put(1), put(2), put(3)`
key 1 has been evicted from both T1 and T2 and sits in both ghost lists. -/
def arcScenA : ArcCache Nat Nat :=
  arcPut 3 30 (arcPut 2 20 (arcPut 1 10 (arcInit 2 2)))

/-- … after the additional `get(1)` (a double ghost hit) -/
def arcScenB : ArcCache Nat Nat := (arcGet 1 arcScenA).2

/-- ARC idempotence probe (capacity 1, threshold 2): `put(1,10); put(1,10)` -/
def arcPutPut : ArcCache Nat Nat := arcPut 1 10 (arcPut 1 10 (arcInit 1 2))

/-- … versus `put(1,10); get(1)` -/
def arcPutGet : ArcCache Nat Nat := (arcGet 1 (arcPut 1 10 (arcInit 1 2))).2

/-- Raw (undisciplined) ArcLruCache run: capacity 2,
`put(1), put(2), put(3), put(1)` with no ghost checks -/
def arcLruRawScen : ArcLru Nat Nat :=
  (arcLruPut 1 11 (arcLruPut 3 30 (arcLruPut 2 20 (arcLruPut 1 10
    (arcLruInit 2 2)).2).2).2).2

/-- LRU-K scenario (K = 3, main capacity 2, history capacity 8):
after `put(1,"a"), put(1,"a")` -/
def klrukScenA : KLruKCache Nat String :=
  klrukPut 1 "a" (klrukPut 1 "a" (klrukInit 2 8 3))

/-- … after the additional third touch `get(1)` -/
def klrukScenB : KLruKCache Nat String := (klrukGet 1 klrukScenA).2

/-- … after six further touches promoting keys 2 and 3 into the
capacity-2 main cache (each key's third `put` promotes it) -/
def klrukScenC : KLruKCache Nat String :=
  klrukPut 3 "z" (klrukPut 3 "z" (klrukPut 3 "z"
    (klrukPut 2 "y" (klrukPut 2 "y" (klrukPut 2 "y" klrukScenB)))))

/-- A small `LfuCache` state whose stored average has just exceeded the
threshold (as it is right after an aging pass triggered by a hit). -/
def c10State : LfuCache Nat Nat :=
  { capacity := 2, minFreq := 1, maxAverageNum := 1,
    curAverageNum := 3, curTotalNum := 3,
    nodeMap := [(1, 10, 3)], buckets := [(3, [1])] }

/-! # Theorems -/

set_option maxRecDepth 200000 in
set_option maxHeartbeats 4000000 in
theorem lfuAged_eq : lfuAged = lfuAgedLit := by decide

/-- Claim C2: for an `LruCache` of capacity 2, after
`put(1,"a"), put(2,"b")` the operation `get(1)` hits and returns `"a"`;
after the further `put(3,"c")` the operation `get(2)` misses, and the
live keys, in LRU→MRU order, are exactly `[1, 3]`. -/
theorem claim_C2_lru_basic :
    (lruGet 1 lruScenA).1 = some "a"
      ∧ (lruGet 2 lruScenC).1 = none
      ∧ lruScenC.entries.map Prod.fst = [1, 3] := by
  decide

/-- Claim C1 (failing evaluation): `LfuCache` violates `size ≤ capacity`.
With capacity 1 and `maxAverageNum = 252`, after `put(1,10)`, 252 hits on
key 1 and one more `put(2,20)`, the index holds 2 live entries in a
capacity-1 cache: the aging pass left `minFreq_ = 1` pointing at an empty
bucket, so the eviction inside the final `put` removed nothing. -/
theorem claim_C1_size_exceeds_capacity :
    lfuOverfull.nodeMap.length = 2 ∧ lfuOverfull.capacity = 1 := by
  have h : lfuOverfull = lfuPut 2 20 lfuAgedLit := by
    rw [lfuOverfull, lfuAged_eq]
  rw [h]; decide

/-- Claim C4 (failing evaluation): after the aging pass of the same run,
`minFreq_ = 1` although the smallest (indeed the only) non-empty bucket
has frequency 127: `updateMinFreq` starts its scan at `INT8_MAX = 127`
and resets any result equal to 127 to 1, so `min_freq` is not the
smallest non-empty bucket key. -/
theorem claim_C4_minfreq_not_smallest :
    lfuAged.minFreq = 1
      ∧ (lfuAged.buckets.filter (fun b => !b.2.isEmpty)).map Prod.fst = [127]
      ∧ bucketFind lfuAged.buckets 1 = some [] := by
  rw [lfuAged_eq]; decide

/-! ### Capacity-zero quiescence (claim C9) -/

theorem lruStep_capacity_zero (op : LruOp K V) :
    lruStep op (lruInit 0) = lruInit 0 := by
  cases op <;> rfl

theorem lruRun_capacity_zero :
    ∀ ops : List (LruOp K V), lruRun ops (lruInit 0) = lruInit 0
  | [] => rfl
  | op :: ops => by
      show lruRun ops (lruStep op (lruInit 0)) = lruInit 0
      rw [lruStep_capacity_zero]
      exact lruRun_capacity_zero ops

theorem lfuStep_capacity_zero [Inhabited K] (maxAvg : Int) (op : LfuOp K V) :
    lfuStep op (lfuInit 0 maxAvg) = lfuInit 0 maxAvg := by
  cases op <;> rfl

theorem lfuRun_capacity_zero [Inhabited K] (maxAvg : Int) :
    ∀ ops : List (LfuOp K V), lfuRun ops (lfuInit 0 maxAvg) = lfuInit 0 maxAvg
  | [] => rfl
  | op :: ops => by
      show lfuRun ops (lfuStep op (lfuInit 0 maxAvg)) = lfuInit 0 maxAvg
      rw [lfuStep_capacity_zero]
      exact lfuRun_capacity_zero maxAvg ops

/-- Claim C9: an `LruCache` or `LfuCache` constructed with capacity 0 is
inert: any sequence of operations leaves it in its initial (empty) state,
every `put` is a no-op and every `get` misses. -/
theorem claim_C9_capacity_zero {K V : Type} [DecidableEq K] [Inhabited K] :
    (∀ ops : List (LruOp K V), lruRun ops (lruInit 0) = lruInit 0)
    ∧ (∀ (k : K) (v : V), lruPut k v (lruInit 0) = lruInit 0)
    ∧ (∀ k : K, (lruGet k (lruInit (K := K) (V := V) 0)).1 = none)
    ∧ (∀ (maxAvg : Int) (ops : List (LfuOp K V)),
        lfuRun ops (lfuInit 0 maxAvg) = lfuInit 0 maxAvg)
    ∧ (∀ (maxAvg : Int) (k : K) (v : V),
        lfuPut k v (lfuInit 0 maxAvg) = lfuInit 0 maxAvg)
    ∧ (∀ (maxAvg : Int) (k : K),
        (lfuGet k (lfuInit (K := K) (V := V) 0 maxAvg)).1 = none) :=
  ⟨lruRun_capacity_zero,
   fun _ _ => rfl,
   fun _ => rfl,
   lfuRun_capacity_zero,
   fun _ _ _ => rfl,
   fun _ _ => rfl⟩

/-! ### Frame lemmas for the LFU aging machinery -/

theorem lfuSetFreq_map_fst (m : List (K × V × Int)) (k : K) (f : Int) :
    (lfuSetFreq m k f).map Prod.fst = m.map Prod.fst := by
  induction m with
  | nil => rfl
  | cons p m ih =>
      unfold lfuSetFreq at *
      by_cases h : p.1 = k <;> simp [h, ih]

theorem lfuEraseNode_map_fst (m : List (K × V × Int)) (k : K) :
    (lfuEraseNode m k).map Prod.fst
      = (m.map Prod.fst).filter (fun x => !decide (x = k)) := by
  induction m with
  | nil => rfl
  | cons p m ih =>
      unfold lfuEraseNode at *
      by_cases h : p.1 = k <;> simp [h, ih]

theorem ageNode_nodeMap_fst (half : Int) (acc : LfuCache K V) (p : K × V × Int) :
    (ageNode half acc p).nodeMap.map Prod.fst = acc.nodeMap.map Prod.fst :=
  lfuSetFreq_map_fst acc.nodeMap p.1 _

theorem foldl_ageNode_nodeMap_fst (half : Int) :
    ∀ (l : List (K × V × Int)) (acc : LfuCache K V),
      (l.foldl (ageNode half) acc).nodeMap.map Prod.fst = acc.nodeMap.map Prod.fst
  | [], _ => rfl
  | p :: l, acc => by
      rw [List.foldl_cons, foldl_ageNode_nodeMap_fst half l, ageNode_nodeMap_fst]

theorem handleOver_nodeMap_fst (s : LfuCache K V) :
    (handleOverMaxAverageNum s).nodeMap.map Prod.fst = s.nodeMap.map Prod.fst := by
  unfold handleOverMaxAverageNum
  split
  · rfl
  · exact foldl_ageNode_nodeMap_fst _ s.nodeMap s

theorem ite_handleOver_nodeMap_fst (c : Prop) [Decidable c] (t : LfuCache K V) :
    (if c then handleOverMaxAverageNum t else t).nodeMap.map Prod.fst
      = t.nodeMap.map Prod.fst := by
  split
  · exact handleOver_nodeMap_fst t
  · rfl

theorem addFreqNum_nodeMap_fst (s : LfuCache K V) :
    (addFreqNum s).nodeMap.map Prod.fst = s.nodeMap.map Prod.fst := by
  unfold addFreqNum
  exact ite_handleOver_nodeMap_fst _ _

/-! ### LFU eviction (claim C3) -/

/-- Claim C3: an `LfuCache` insertion of a new key at full capacity evicts
exactly the front (oldest) node of the current `minFreq_` bucket: the live
key set afterwards is the old one minus that node's key plus the new key.
Concretely, for capacity 2 and `put(1,"a"), put(2,"b"), get(1), put(3,"c")`
key 2 is evicted: `get(2)` misses, `get(3)` returns `"c"`, `get(1)`
returns `"a"`. -/
theorem claim_C3_lfu_tiebreak {K V : Type} [DecidableEq K] [Inhabited K] :
    (∀ (s : LfuCache K V) (k : K) (v : V) (kk : K) (rest : List K) (vv : V) (ff : Int),
      lfuFind s.nodeMap k = none →
      (s.nodeMap.length : Int) = s.capacity →
      ¬ s.capacity = 0 →
      bucketFind s.buckets s.minFreq = some (kk :: rest) →
      lfuFind s.nodeMap kk = some (vv, ff) →
      (lfuPut k v s).nodeMap.map Prod.fst
        = ((s.nodeMap.map Prod.fst).filter (fun x => !decide (x = kk))) ++ [k])
    ∧ (lfuGet 2 lfuScenA).1 = none
    ∧ (lfuGet 3 lfuScenB).1 = some "c"
    ∧ (lfuGet 1 lfuScenC).1 = some "a" := by
  refine ⟨?_, by decide, by decide, by decide⟩
  intro s k v kk rest vv ff hFind hLen hCap hBucket hkk
  simp only [lfuPut, hFind, if_neg hCap, putInternal, hLen, if_pos rfl, kickOut, hBucket, hkk]
  rw [addFreqNum_nodeMap_fst]
  show (lfuEraseNode s.nodeMap kk ++ [(k, v, 1)]).map Prod.fst = _
  rw [List.map_append, lfuEraseNode_map_fst]
  rfl

/-- Witness for the universally quantified part of C3, at the state just
before the tie-break eviction: key 2 (front of bucket 1) is evicted and
key 3 admitted. -/
theorem claim_C3_witness :
    (lfuFind lfuScenPre.nodeMap 3 = none
      ∧ (lfuScenPre.nodeMap.length : Int) = lfuScenPre.capacity
      ∧ ¬ lfuScenPre.capacity = 0
      ∧ bucketFind lfuScenPre.buckets lfuScenPre.minFreq = some [2]
      ∧ lfuFind lfuScenPre.nodeMap 2 = some ("b", 1))
    ∧ (lfuPut 3 "c" lfuScenPre).nodeMap.map Prod.fst
        = ((lfuScenPre.nodeMap.map Prod.fst).filter (fun x => !decide (x = 2))) ++ [3] :=
  ⟨⟨by decide, by decide, by decide, by decide, by decide⟩,
   claim_C3_lfu_tiebreak.1 lfuScenPre 3 "c" 2 [] "b" 1
     (by decide) (by decide) (by decide) (by decide) (by decide)⟩

/-! ### Generic association-list facts -/

theorem find?_key_append {α : Type} {X : List (K × α)} {k : K} (a : α)
    (h : ∀ p ∈ X, ¬ p.1 = k) :
    (X ++ [(k, a)]).find? (fun p => decide (p.1 = k)) = some (k, a) := by
  induction X with
  | nil => simp
  | cons x X ih =>
      have hx : ¬ x.1 = k := h x (List.mem_cons_self x X)
      rw [List.cons_append, List.find?_cons_of_neg _ (by simpa using hx)]
      exact ih (fun p hp => h p (List.mem_cons_of_mem x hp))

theorem find_none_no_key {α : Type} {l : List (K × α)} {k : K}
    (h : l.find? (fun p => decide (p.1 = k)) = none) : ∀ p ∈ l, ¬ p.1 = k := by
  intro p hp
  have := List.find?_eq_none.mp h p hp
  simpa using this

/-! ### LRU idempotence (first half of claim C7) -/

theorem eraseKey_no_key (l : List (K × V)) (k : K) :
    ∀ p ∈ lruEraseKey l k, ¬ p.1 = k := by
  intro p hp
  have := List.of_mem_filter hp
  simpa using this

theorem lruPut_capacity (k : K) (v : V) (s : LruCache K V) :
    (lruPut k v s).capacity = s.capacity := by
  unfold lruPut
  split
  · rfl
  · cases lruFind s k <;> rfl

theorem lruFind_put_self (k : K) (v : V) (s : LruCache K V) (hc : ¬ s.capacity ≤ 0) :
    lruFind (lruPut k v s) k = some v := by
  unfold lruPut
  rw [if_neg hc]
  cases hf : lruFind s k with
  | some v0 =>
      show lruFind { s with entries := lruEraseKey s.entries k ++ [(k, v)] } k = some v
      unfold lruFind
      rw [find?_key_append v (eraseKey_no_key s.entries k)]
      rfl
  | none =>
      have hf' : s.entries.find? (fun p => decide (p.1 = k)) = none := by
        unfold lruFind at hf
        exact Option.map_eq_none'.mp hf
      show lruFind { s with entries :=
        (if (s.entries.length : Int) ≥ s.capacity then s.entries.tail else s.entries)
          ++ [(k, v)] } k = some v
      unfold lruFind
      rw [find?_key_append v ?_]
      · rfl
      · intro p hp
        refine find_none_no_key hf' p ?_
        revert hp
        split
        · exact fun hp => (List.tail_sublist s.entries).mem hp
        · exact id

theorem lru_putput_eq_putget (s : LruCache K V) (k : K) (v : V)
    (hwf : s.capacity ≤ 0 → s.entries = []) :
    lruPut k v (lruPut k v s) = (lruGet k (lruPut k v s)).2 := by
  by_cases hc : s.capacity ≤ 0
  · have h1 : lruPut k v s = s := by unfold lruPut; rw [if_pos hc]
    rw [h1]
    have h2 : (lruGet k s).2 = s := by
      unfold lruGet lruFind
      rw [hwf hc]
      rfl
    rw [h2, h1]
  · have hc1 : ¬ (lruPut k v s).capacity ≤ 0 := by rw [lruPut_capacity]; exact hc
    have hf1 : lruFind (lruPut k v s) k = some v := lruFind_put_self k v s hc
    revert hc1 hf1
    generalize lruPut k v s = T
    intro hc1 hf1
    unfold lruPut lruGet
    rw [if_neg hc1, hf1]

/-! ### LFU frame lemmas (key/value view through the aging machinery) -/

theorem lfuSetFreq_kv (m : List (K × V × Int)) (k : K) (f : Int) :
    lfuKV (lfuSetFreq m k f) = lfuKV m := by
  induction m with
  | nil => rfl
  | cons p m ih =>
      unfold lfuSetFreq lfuKV at *
      by_cases h : p.1 = k <;> simp [h, ih]

omit [DecidableEq K] in
theorem map_fst_eq_kv_fst (m : List (K × V × Int)) :
    m.map Prod.fst = (lfuKV m).map Prod.fst := by
  unfold lfuKV
  rw [List.map_map]
  rfl

theorem lfuValOf_eq_kv (m : List (K × V × Int)) (k : K) :
    lfuValOf m k = ((lfuKV m).find? (fun q => decide (q.1 = k))).map Prod.snd := by
  induction m with
  | nil => rfl
  | cons p m ih =>
      unfold lfuValOf lfuFind lfuKV at *
      by_cases h : p.1 = k <;> simp [h, List.find?_cons, ih]

theorem lfuValOf_congr_kv {m m2 : List (K × V × Int)} (h : lfuKV m = lfuKV m2) (k : K) :
    lfuValOf m k = lfuValOf m2 k := by
  rw [lfuValOf_eq_kv, lfuValOf_eq_kv, h]

theorem ageNode_frame (half : Int) (acc : LfuCache K V) (p : K × V × Int) :
    (ageNode half acc p).capacity = acc.capacity
    ∧ (ageNode half acc p).maxAverageNum = acc.maxAverageNum
    ∧ (ageNode half acc p).curTotalNum = acc.curTotalNum
    ∧ (ageNode half acc p).curAverageNum = acc.curAverageNum
    ∧ (ageNode half acc p).minFreq = acc.minFreq
    ∧ lfuKV (ageNode half acc p).nodeMap = lfuKV acc.nodeMap :=
  ⟨rfl, rfl, rfl, rfl, rfl, lfuSetFreq_kv acc.nodeMap p.1 _⟩

theorem foldl_ageNode_frame (half : Int) :
    ∀ (l : List (K × V × Int)) (acc : LfuCache K V),
      (l.foldl (ageNode half) acc).capacity = acc.capacity
      ∧ (l.foldl (ageNode half) acc).maxAverageNum = acc.maxAverageNum
      ∧ (l.foldl (ageNode half) acc).curTotalNum = acc.curTotalNum
      ∧ (l.foldl (ageNode half) acc).curAverageNum = acc.curAverageNum
      ∧ (l.foldl (ageNode half) acc).minFreq = acc.minFreq
      ∧ lfuKV (l.foldl (ageNode half) acc).nodeMap = lfuKV acc.nodeMap
  | [], _ => ⟨rfl, rfl, rfl, rfl, rfl, rfl⟩
  | p :: l, acc => by
      rw [List.foldl_cons]
      have h1 := foldl_ageNode_frame half l (ageNode half acc p)
      have h2 := ageNode_frame half acc p
      exact ⟨h1.1.trans h2.1, h1.2.1.trans h2.2.1, h1.2.2.1.trans h2.2.2.1,
             h1.2.2.2.1.trans h2.2.2.2.1, h1.2.2.2.2.1.trans h2.2.2.2.2.1,
             h1.2.2.2.2.2.trans h2.2.2.2.2.2⟩

theorem handleOver_frame (s : LfuCache K V) :
    (handleOverMaxAverageNum s).capacity = s.capacity
    ∧ (handleOverMaxAverageNum s).maxAverageNum = s.maxAverageNum
    ∧ (handleOverMaxAverageNum s).curTotalNum = s.curTotalNum
    ∧ (handleOverMaxAverageNum s).curAverageNum = s.curAverageNum
    ∧ lfuKV (handleOverMaxAverageNum s).nodeMap = lfuKV s.nodeMap := by
  unfold handleOverMaxAverageNum
  split
  · exact ⟨rfl, rfl, rfl, rfl, rfl⟩
  · have h := foldl_ageNode_frame (s.maxAverageNum.tdiv 2) s.nodeMap s
    exact ⟨h.1, h.2.1, h.2.2.1, h.2.2.2.1, h.2.2.2.2.2⟩

theorem ite_handleOver_frame (c : Prop) [Decidable c] (t : LfuCache K V) :
    (if c then handleOverMaxAverageNum t else t).capacity = t.capacity
    ∧ (if c then handleOverMaxAverageNum t else t).maxAverageNum = t.maxAverageNum
    ∧ (if c then handleOverMaxAverageNum t else t).curTotalNum = t.curTotalNum
    ∧ (if c then handleOverMaxAverageNum t else t).curAverageNum = t.curAverageNum
    ∧ lfuKV (if c then handleOverMaxAverageNum t else t).nodeMap = lfuKV t.nodeMap := by
  split
  · exact handleOver_frame t
  · exact ⟨rfl, rfl, rfl, rfl, rfl⟩

theorem addFreqNum_frame (s : LfuCache K V) :
    (addFreqNum s).capacity = s.capacity
    ∧ (addFreqNum s).maxAverageNum = s.maxAverageNum
    ∧ (addFreqNum s).curTotalNum = s.curTotalNum + 1
    ∧ (addFreqNum s).curAverageNum
        = (if s.nodeMap.isEmpty then 0
           else (s.curTotalNum + 1).tdiv (s.nodeMap.length : Int))
    ∧ lfuKV (addFreqNum s).nodeMap = lfuKV s.nodeMap := by
  unfold addFreqNum
  have h := ite_handleOver_frame
    ((if s.nodeMap.isEmpty then 0
      else (s.curTotalNum + 1).tdiv (s.nodeMap.length : Int)) > s.maxAverageNum)
    { s with curTotalNum := s.curTotalNum + 1,
             curAverageNum :=
               if s.nodeMap.isEmpty then 0
               else (s.curTotalNum + 1).tdiv (s.nodeMap.length : Int) }
  exact ⟨h.1, h.2.1, h.2.2.1, h.2.2.2.1, h.2.2.2.2⟩

theorem getInternal_frame (k : K) (f : Int) (s : LfuCache K V) :
    (getInternal k f s).capacity = s.capacity
    ∧ (getInternal k f s).maxAverageNum = s.maxAverageNum
    ∧ (getInternal k f s).curTotalNum = s.curTotalNum + 1
    ∧ lfuKV (getInternal k f s).nodeMap = lfuKV s.nodeMap := by
  have key : ∀ s2 : LfuCache K V,
      s2.capacity = s.capacity → s2.maxAverageNum = s.maxAverageNum →
      s2.curTotalNum = s.curTotalNum → lfuKV s2.nodeMap = lfuKV s.nodeMap →
      (addFreqNum s2).capacity = s.capacity
      ∧ (addFreqNum s2).maxAverageNum = s.maxAverageNum
      ∧ (addFreqNum s2).curTotalNum = s.curTotalNum + 1
      ∧ lfuKV (addFreqNum s2).nodeMap = lfuKV s.nodeMap := by
    intro s2 h1 h2 h3 h4
    have h := addFreqNum_frame s2
    exact ⟨h.1.trans h1, h.2.1.trans h2, h.2.2.1.trans (by rw [h3]),
           h.2.2.2.2.trans h4⟩
  unfold getInternal
  apply key
  · split <;> rfl
  · split <;> rfl
  · split <;> rfl
  · split <;> exact lfuSetFreq_kv s.nodeMap k (f + 1)

/-! ### LFU idempotence (second half of claim C7) -/

theorem kickOut_capacity [Inhabited K] (s : LfuCache K V) :
    (kickOut s).capacity = s.capacity := by
  unfold kickOut
  cases hb : bucketFind s.buckets s.minFreq with
  | none => rfl
  | some l => cases l <;> rfl

theorem kickOut_nodeMap_subset [Inhabited K] (s : LfuCache K V) :
    ∀ p ∈ (kickOut s).nodeMap, p ∈ s.nodeMap := by
  unfold kickOut
  cases hb : bucketFind s.buckets s.minFreq with
  | none => exact fun p hp => hp
  | some l =>
      cases l with
      | nil => exact fun p hp => List.mem_of_mem_filter hp
      | cons kk t => exact fun p hp => List.mem_of_mem_filter hp

theorem putInternal_capacity [Inhabited K] (k : K) (v : V) (s : LfuCache K V) :
    (putInternal k v s).capacity = s.capacity := by
  unfold putInternal
  show (addFreqNum _).capacity = s.capacity
  rw [(addFreqNum_frame _).1]
  show (if (s.nodeMap.length : Int) = s.capacity then kickOut s else s).capacity = s.capacity
  split
  · exact kickOut_capacity s
  · rfl

theorem lfuPut_capacity [Inhabited K] (k : K) (v : V) (s : LfuCache K V) :
    (lfuPut k v s).capacity = s.capacity := by
  unfold lfuPut
  split
  · rfl
  · cases hf : lfuFind s.nodeMap k with
    | some pr =>
        show (getInternal k pr.2 _).capacity = s.capacity
        exact (getInternal_frame k pr.2 _).1
    | none => exact putInternal_capacity k v s

theorem lfuValOf_setValue_of_found {m : List (K × V × Int)} {k : K} {pr : V × Int}
    (h : lfuFind m k = some pr) (v : V) :
    lfuValOf (lfuSetValue m k v) k = some v := by
  induction m with
  | nil => exact absurd h (by simp [lfuFind])
  | cons p m ih =>
      by_cases hpk : p.1 = k
      · show lfuValOf ((if p.1 = k then (p.1, v, p.2.2) else p) :: lfuSetValue m k v) k
          = some v
        rw [if_pos hpk]
        unfold lfuValOf lfuFind
        rw [List.find?_cons_of_pos _ (by simpa using hpk)]
        rfl
      · show lfuValOf ((if p.1 = k then (p.1, v, p.2.2) else p) :: lfuSetValue m k v) k
          = some v
        rw [if_neg hpk]
        have h2 : lfuFind m k = some pr := by
          unfold lfuFind at h
          rwa [List.find?_cons_of_neg _ (by simpa using hpk)] at h
        have h3 := ih h2
        unfold lfuValOf lfuFind at h3 ⊢
        rwa [List.find?_cons_of_neg _ (by simpa using hpk)]

theorem valOf_append_self {X : List (K × V × Int)} {k : K} (v : V) (f : Int)
    (h : ∀ p ∈ X, ¬ p.1 = k) : lfuValOf (X ++ [(k, v, f)]) k = some v := by
  unfold lfuValOf lfuFind
  rw [find?_key_append (v, f) h]
  rfl

theorem lfuPut_valOf_self [Inhabited K] (k : K) (v : V) (s : LfuCache K V)
    (hc : ¬ s.capacity = 0) :
    lfuValOf (lfuPut k v s).nodeMap k = some v := by
  unfold lfuPut
  rw [if_neg hc]
  cases hf : lfuFind s.nodeMap k with
  | some pr =>
      show lfuValOf (getInternal k pr.2
        { s with nodeMap := lfuSetValue s.nodeMap k v }).nodeMap k = some v
      rw [lfuValOf_congr_kv (getInternal_frame k pr.2 _).2.2.2 k]
      exact lfuValOf_setValue_of_found hf v
  | none =>
      show lfuValOf (putInternal k v s).nodeMap k = some v
      unfold putInternal
      show lfuValOf (addFreqNum _).nodeMap k = some v
      rw [lfuValOf_congr_kv (addFreqNum_frame _).2.2.2.2 k]
      have hnk : ∀ p ∈ s.nodeMap, ¬ p.1 = k := by
        refine find_none_no_key ?_
        unfold lfuFind at hf
        exact Option.map_eq_none'.mp hf
      apply valOf_append_self
      intro p hp
      have hmem : p ∈ s.nodeMap := by
        revert hp
        split
        · exact fun hp => kickOut_nodeMap_subset s p hp
        · exact fun hp => hp
      exact hnk p hmem

theorem lfuSetValue_of_not_mem {m : List (K × V × Int)} {k : K}
    (h : ¬ k ∈ m.map Prod.fst) (v : V) : lfuSetValue m k v = m := by
  induction m with
  | nil => rfl
  | cons p m ih =>
      unfold lfuSetValue at *
      have hpk : ¬ p.1 = k := fun he => h (by simp [he])
      rw [List.map_cons, if_neg hpk, ih (fun hm => h (by simp [hm]))]

theorem lfuSetValue_eq_self {m : List (K × V × Int)} {k : K} {v : V} {f : Int}
    (hnd : (m.map Prod.fst).Nodup) (h : lfuFind m k = some (v, f)) :
    lfuSetValue m k v = m := by
  induction m with
  | nil => exact absurd h (by simp [lfuFind])
  | cons p m ih =>
      have hnd2 : (m.map Prod.fst).Nodup := by
        rw [List.map_cons] at hnd
        exact (List.nodup_cons.mp hnd).2
      by_cases hpk : p.1 = k
      · have hv : p.2.1 = v := by
          unfold lfuFind at h
          rw [List.find?_cons_of_pos _ (by simpa using hpk)] at h
          simp only [Option.map_some'] at h
          exact congrArg Prod.fst (Option.some.inj h)
        have hnotmem : ¬ k ∈ m.map Prod.fst := by
          rw [List.map_cons] at hnd
          rw [← hpk]
          exact (List.nodup_cons.mp hnd).1
        show (if p.1 = k then (p.1, v, p.2.2) else p) :: lfuSetValue m k v = p :: m
        rw [if_pos hpk, ← hv, lfuSetValue_of_not_mem hnotmem p.2.1]
      · have h2 : lfuFind m k = some (v, f) := by
          unfold lfuFind at h
          rwa [List.find?_cons_of_neg _ (by simpa using hpk)] at h
        show (if p.1 = k then (p.1, v, p.2.2) else p) :: lfuSetValue m k v = p :: m
        rw [if_neg hpk, ih hnd2 h2]

theorem lfu_putput_eq_putget [Inhabited K] (s : LfuCache K V) (k : K) (v : V)
    (hwf : s.capacity = 0 → s.nodeMap = [])
    (hnd : ((lfuPut k v s).nodeMap.map Prod.fst).Nodup) :
    lfuPut k v (lfuPut k v s) = (lfuGet k (lfuPut k v s)).2 := by
  by_cases hc : s.capacity = 0
  · have h1 : lfuPut k v s = s := by unfold lfuPut; rw [if_pos hc]
    rw [h1]
    have h2 : (lfuGet k s).2 = s := by
      unfold lfuGet lfuFind
      rw [hwf hc]
      rfl
    rw [h2, h1]
  · have hc1 : ¬ (lfuPut k v s).capacity = 0 := by rw [lfuPut_capacity]; exact hc
    have hval : lfuValOf (lfuPut k v s).nodeMap k = some v :=
      lfuPut_valOf_self k v s hc
    obtain ⟨pf, hpr⟩ : ∃ pf, lfuFind (lfuPut k v s).nodeMap k = some (v, pf) := by
      unfold lfuValOf at hval
      cases hfind : lfuFind (lfuPut k v s).nodeMap k with
      | none => rw [hfind] at hval; exact absurd hval (by simp)
      | some pr =>
          rw [hfind] at hval
          have hv : pr.1 = v := Option.some.inj hval
          exact ⟨pr.2, by rw [← hv]⟩
    have hset : lfuSetValue (lfuPut k v s).nodeMap k v = (lfuPut k v s).nodeMap :=
      lfuSetValue_eq_self hnd hpr
    revert hc1 hpr hset
    generalize lfuPut k v s = T
    intro hc1 hpr hset
    unfold lfuPut lfuGet
    rw [if_neg hc1, hpr]
    show getInternal k pf { T with nodeMap := lfuSetValue T.nodeMap k v }
      = getInternal k pf T
    rw [hset]

theorem lfuSetValue_map_fst (m : List (K × V × Int)) (k : K) (v : V) :
    (lfuSetValue m k v).map Prod.fst = m.map Prod.fst := by
  induction m with
  | nil => rfl
  | cons p m ih =>
      unfold lfuSetValue at *
      by_cases h : p.1 = k <;> simp [h, ih]

omit [DecidableEq K] in
theorem kv_eq_map_fst_eq {m m2 : List (K × V × Int)} (h : lfuKV m = lfuKV m2) :
    m.map Prod.fst = m2.map Prod.fst := by
  rw [map_fst_eq_kv_fst, map_fst_eq_kv_fst, h]

theorem kickOut_keys_nodup [Inhabited K] (s : LfuCache K V)
    (hnd : (s.nodeMap.map Prod.fst).Nodup) :
    ((kickOut s).nodeMap.map Prod.fst).Nodup := by
  unfold kickOut
  cases hb : bucketFind s.buckets s.minFreq with
  | none => exact hnd
  | some l =>
      cases l with
      | nil =>
          show ((lfuEraseNode s.nodeMap default).map Prod.fst).Nodup
          rw [lfuEraseNode_map_fst]
          exact hnd.filter _
      | cons kk t =>
          show ((lfuEraseNode s.nodeMap kk).map Prod.fst).Nodup
          rw [lfuEraseNode_map_fst]
          exact hnd.filter _

theorem lfuPut_keys_nodup [Inhabited K] (k : K) (v : V) (s : LfuCache K V)
    (hnd : (s.nodeMap.map Prod.fst).Nodup) :
    ((lfuPut k v s).nodeMap.map Prod.fst).Nodup := by
  unfold lfuPut
  split
  · exact hnd
  · cases hf : lfuFind s.nodeMap k with
    | some pr =>
        show (((getInternal k pr.2
          { s with nodeMap := lfuSetValue s.nodeMap k v }).nodeMap).map Prod.fst).Nodup
        rw [kv_eq_map_fst_eq (getInternal_frame k pr.2 _).2.2.2]
        show ((lfuSetValue s.nodeMap k v).map Prod.fst).Nodup
        rw [lfuSetValue_map_fst]
        exact hnd
    | none =>
        show (((putInternal k v s).nodeMap).map Prod.fst).Nodup
        have hnk : ∀ p ∈ s.nodeMap, ¬ p.1 = k := by
          refine find_none_no_key ?_
          unfold lfuFind at hf
          exact Option.map_eq_none'.mp hf
        unfold putInternal
        show (((addFreqNum _).nodeMap).map Prod.fst).Nodup
        rw [kv_eq_map_fst_eq (addFreqNum_frame _).2.2.2.2]
        show ((((if (s.nodeMap.length : Int) = s.capacity then kickOut s else s).nodeMap
          ++ [(k, v, 1)]).map Prod.fst)).Nodup
        rw [List.map_append, List.nodup_append]
        refine ⟨?_, List.nodup_singleton k, ?_⟩
        · split
          · exact kickOut_keys_nodup s hnd
          · exact hnd
        · intro x hx hxk
          have hxk2 : x = k := by simpa using hxk
          obtain ⟨p, hp, hpx⟩ := List.mem_map.mp hx
          have hmem : p ∈ s.nodeMap := by
            revert hp
            split
            · exact fun hp => kickOut_nodeMap_subset s p hp
            · exact fun hp => hp
          exact hnk p hmem (hpx.trans hxk2)

/-- Claim C7 counterexample: for `ArcCache` (capacity 1, threshold 2),
`put(1,10); put(1,10)` and `put(1,10); get(1)` produce structurally
different states: the second `put` leaves the T1 access counter at 1 and
mirrors into T2 unconditionally, while the `get` increments the T1
counter to 2 (and promotes only because the threshold is reached). -/
theorem claim_C7_counterexample :
    arcPutPut.lru.main = [(1, 10, 1)]
    ∧ arcPutGet.lru.main = [(1, 10, 2)]
    ∧ ¬ arcPutPut = arcPutGet := by
  refine ⟨by decide, by decide, by decide⟩

/-- Claim C7 (amended): for `LruCache` and `LfuCache`, from any reachable
state (capacity 0 implies an empty cache; LFU index keys are distinct),
`put(k,v); put(k,v)` leaves the engine in exactly the state of
`put(k,v); get(k)`.  For `ArcCache` the law fails. -/
theorem claim_C7_putput_eq_putget {K V : Type} [DecidableEq K] [Inhabited K] :
    (∀ (s : LruCache K V) (k : K) (v : V), (s.capacity ≤ 0 → s.entries = []) →
      lruPut k v (lruPut k v s) = (lruGet k (lruPut k v s)).2)
    ∧ (∀ (s : LfuCache K V) (k : K) (v : V), (s.capacity = 0 → s.nodeMap = []) →
      (s.nodeMap.map Prod.fst).Nodup →
      lfuPut k v (lfuPut k v s) = (lfuGet k (lfuPut k v s)).2) :=
  ⟨fun s k v hwf => lru_putput_eq_putget s k v hwf,
   fun s k v hwf hnd => lfu_putput_eq_putget s k v hwf (lfuPut_keys_nodup k v s hnd)⟩

/-- Witness for C7 at concrete caches holding one entry. -/
theorem claim_C7_witness :
    (((lruPut 5 50 (lruInit 2) : LruCache Nat Nat).capacity ≤ 0
        → (lruPut 5 50 (lruInit 2) : LruCache Nat Nat).entries = [])
      ∧ ((lfuPut 5 50 (lfuInit 2 10) : LfuCache Nat Nat).capacity = 0
        → (lfuPut 5 50 (lfuInit 2 10) : LfuCache Nat Nat).nodeMap = [])
      ∧ ((lfuPut 5 50 (lfuInit 2 10) : LfuCache Nat Nat).nodeMap.map Prod.fst).Nodup)
    ∧ lruPut 7 70 (lruPut 7 70 (lruPut 5 50 (lruInit 2)))
        = (lruGet 7 (lruPut 7 70 (lruPut 5 50 (lruInit 2) : LruCache Nat Nat))).2
    ∧ lfuPut 7 70 (lfuPut 7 70 (lfuPut 5 50 (lfuInit 2 10)))
        = (lfuGet 7 (lfuPut 7 70 (lfuPut 5 50 (lfuInit 2 10) : LfuCache Nat Nat))).2 :=
  ⟨⟨by decide, by decide, by decide⟩,
   claim_C7_putput_eq_putget.1 (lruPut 5 50 (lruInit 2)) 7 70 (by decide),
   claim_C7_putput_eq_putget.2 (lfuPut 5 50 (lfuInit 2 10)) 7 70 (by decide) (by decide)⟩

/-! ### LRU-K admission (claim C6) -/

/-- Claim C6 counterexample: key 1 is promoted into the main cache by its
third touch (so it was touched at least K = 3 times while its history
count survived in the capacity-8 history LRU), yet after keys 2 and 3 are
promoted into the capacity-2 main LRU, key 1 is no longer live — the
claimed "live iff touched K times" equivalence fails in the
right-to-left direction. -/
theorem claim_C6_counterexample :
    klrukInMain klrukScenB 1 = true ∧ klrukInMain klrukScenC 1 = false := by
  refine ⟨by decide, by decide⟩

theorem klrukPut_promotion {K V : Type} [DecidableEq K]
    (s : KLruKCache K V) (key : K) (v : V)
    (hcap : 0 < s.main.capacity) (hMiss : lruFind s.main key = none) :
    klrukInMain (klrukPut key v s) key = true
      ↔ (lruGet key s.history).1.getD 0 + 1 ≥ s.k := by
  have hg : lruGet key s.main = (none, s.main) := by
    unfold lruGet
    rw [hMiss]
  have hcap' : ¬ s.main.capacity ≤ 0 := by omega
  unfold klrukPut
  rw [hg]
  by_cases hk : (lruGet key s.history).1.getD 0 + 1 ≥ s.k
  · rw [if_neg (by simp), if_pos hk]
    unfold klrukInMain
    rw [lruFind_put_self key v s.main hcap']
    simpa using hk
  · rw [if_neg (by simp), if_neg hk]
    unfold klrukInMain
    rw [hMiss]
    simpa using hk

theorem klrukGet_promotion {K V : Type} [DecidableEq K] [Inhabited V]
    (s : KLruKCache K V) (key : K)
    (hcap : 0 < s.main.capacity) (hMiss : lruFind s.main key = none) :
    klrukInMain (klrukGet key s).2 key = true
      ↔ ((lruGet key s.history).1.getD 0 + 1 ≥ s.k
          ∧ (s.historyValueMap.find? (fun p => decide (p.1 = key))).isSome) := by
  have hg : lruGet key s.main = (none, s.main) := by
    unfold lruGet
    rw [hMiss]
  have hcap' : ¬ s.main.capacity ≤ 0 := by omega
  unfold klrukGet klrukInMain
  rw [hg]
  by_cases hk : (lruGet key s.history).1.getD 0 + 1 ≥ s.k
  · cases hfv : s.historyValueMap.find? (fun p => decide (p.1 = key)) with
    | some pr => simp [hk, hfv, lruFind_put_self key pr.2 s.main hcap']
    | none => simp [hk, hfv, hMiss]
  · simp [hk, hMiss]

/-- Claim C6 (amended): a key not currently live in main becomes live
through the wrapper's `put` exactly when that `put` raises its history
count to at least K, and through the value-returning `get` exactly when
the count reaches K and a pending value exists; it then stays live only
until the bounded main LRU evicts it.  Concretely (K = 3, main capacity 2,
history capacity 8): after `put(1,"a"), put(1,"a")` key 1 is not yet in
main, a `get(1)` after only one touch misses (returns the default value)
without promoting, and the third touch promotes key 1 into main. -/
theorem claim_C6_lruk_admission {K V : Type} [DecidableEq K] [Inhabited V] :
    (∀ (s : KLruKCache K V) (key : K) (v : V),
      0 < s.main.capacity → lruFind s.main key = none →
      (klrukInMain (klrukPut key v s) key = true
        ↔ (lruGet key s.history).1.getD 0 + 1 ≥ s.k))
    ∧ (∀ (s : KLruKCache K V) (key : K),
      0 < s.main.capacity → lruFind s.main key = none →
      (klrukInMain (klrukGet key s).2 key = true
        ↔ ((lruGet key s.history).1.getD 0 + 1 ≥ s.k
            ∧ (s.historyValueMap.find? (fun p => decide (p.1 = key))).isSome)))
    ∧ klrukInMain klrukScenA 1 = false
    ∧ (klrukGet 1 (klrukPut 1 "a" (klrukInit 2 8 3))).1 = ""
    ∧ klrukInMain (klrukGet 1 (klrukPut 1 "a" (klrukInit 2 8 3))).2 1 = false
    ∧ klrukInMain klrukScenB 1 = true :=
  ⟨fun s key v hcap hMiss => klrukPut_promotion s key v hcap hMiss,
   fun s key hcap hMiss => klrukGet_promotion s key hcap hMiss,
   by decide, by decide, by decide, by decide⟩

/-- Witness for C6's quantified parts at the state after two touches of
key 1: the third touch (a `put` or a `get`) promotes. -/
theorem claim_C6_witness :
    (0 < klrukScenA.main.capacity
      ∧ lruFind klrukScenA.main 1 = none
      ∧ (lruGet 1 klrukScenA.history).1.getD 0 + 1 ≥ klrukScenA.k)
    ∧ klrukInMain (klrukPut 1 "a" klrukScenA) 1 = true
    ∧ klrukInMain (klrukGet 1 klrukScenA).2 1 = true :=
  ⟨⟨by decide, by decide, by decide⟩,
   (claim_C6_lruk_admission.1 klrukScenA 1 "a" (by decide) (by decide)).mpr (by decide),
   (claim_C6_lruk_admission.2.1 klrukScenA 1 (by decide) (by decide)).mpr
     ⟨by decide, by decide⟩⟩

/-! ### Aging frame property (claim C10) -/

theorem lfuSetFreq_isEmpty (m : List (K × V × Int)) (k : K) (f : Int) :
    (lfuSetFreq m k f).isEmpty = m.isEmpty := by
  cases m <;> rfl

theorem getInternal_curAvg (k : K) (f : Int) (s : LfuCache K V) :
    (getInternal k f s).curAverageNum
      = (if s.nodeMap.isEmpty then 0
         else (s.curTotalNum + 1).tdiv (s.nodeMap.length : Int)) := by
  have key : ∀ s2 : LfuCache K V, s2.curTotalNum = s.curTotalNum →
      s2.nodeMap.length = s.nodeMap.length →
      s2.nodeMap.isEmpty = s.nodeMap.isEmpty →
      (addFreqNum s2).curAverageNum
        = (if s.nodeMap.isEmpty then 0
           else (s.curTotalNum + 1).tdiv (s.nodeMap.length : Int)) := by
    intro s2 h1 h2 h3
    refine (addFreqNum_frame s2).2.2.2.1.trans ?_
    rw [h1, h2, h3]
  unfold getInternal
  apply key
  · split <;> rfl
  · split <;> exact List.length_map _ _
  · split <;> exact lfuSetFreq_isEmpty s.nodeMap k (f + 1)

/-- Claim C10: the global aging pass touches only frequencies, bucket
membership and `minFreq_`: it preserves `curTotalNum_`, `curAverageNum_`,
the capacity, the threshold and the entire key/value association.  Hence
right after an aging pass the stored average still exceeds
`maxAverageNum_`, and a hit on any live key from such a state (where the
stored average is the quotient `curTotalNum_ / size`) drives the
recomputed average over the threshold again, so `addFreqNum` runs another
full aging pass on that very hit. -/
theorem claim_C10_aging_frame {K V : Type} [DecidableEq K] :
    (∀ s : LfuCache K V,
      (handleOverMaxAverageNum s).curTotalNum = s.curTotalNum
      ∧ (handleOverMaxAverageNum s).curAverageNum = s.curAverageNum
      ∧ (handleOverMaxAverageNum s).capacity = s.capacity
      ∧ (handleOverMaxAverageNum s).maxAverageNum = s.maxAverageNum
      ∧ lfuKV (handleOverMaxAverageNum s).nodeMap = lfuKV s.nodeMap)
    ∧ (∀ s : LfuCache K V, s.curAverageNum > s.maxAverageNum →
        (handleOverMaxAverageNum s).curAverageNum
          > (handleOverMaxAverageNum s).maxAverageNum)
    ∧ (∀ (s : LfuCache K V) (k : K) (pr : V × Int),
        lfuFind s.nodeMap k = some pr →
        0 ≤ s.curTotalNum →
        s.curAverageNum = s.curTotalNum.tdiv (s.nodeMap.length : Int) →
        s.curAverageNum > s.maxAverageNum →
        (lfuGet k s).2.curAverageNum > s.maxAverageNum) := by
  refine ⟨?_, ?_, ?_⟩
  · intro s
    have h := handleOver_frame s
    exact ⟨h.2.2.1, h.2.2.2.1, h.1, h.2.1, h.2.2.2.2⟩
  · intro s hgt
    have h := handleOver_frame s
    rw [h.2.2.2.1, h.2.1]
    exact hgt
  · intro s k pr hfind ht havg hgt
    have hne : s.nodeMap ≠ [] := by
      intro he
      rw [he] at hfind
      exact absurd hfind (by simp [lfuFind])
    have hemp : s.nodeMap.isEmpty = false := by
      cases hm : s.nodeMap with
      | nil => exact absurd hm hne
      | cons a l => rfl
    unfold lfuGet
    rw [hfind]
    show (getInternal k pr.2 s).curAverageNum > s.maxAverageNum
    rw [getInternal_curAvg, hemp]
    simp only [Bool.false_eq_true, if_false]
    have h0 : s.curTotalNum.tdiv (s.nodeMap.length : Int) > s.maxAverageNum := by
      rw [← havg]
      exact hgt
    obtain ⟨n, hn⟩ := Int.eq_ofNat_of_zero_le ht
    calc s.maxAverageNum
        < s.curTotalNum.tdiv (s.nodeMap.length : Int) := h0
      _ ≤ (s.curTotalNum + 1).tdiv (s.nodeMap.length : Int) := by
          rw [hn]
          rw [show ((n : Int) + 1) = ((n + 1 : Nat) : Int) by push_cast; ring]
          rw [← Int.ofNat_tdiv, ← Int.ofNat_tdiv]
          exact_mod_cast Nat.div_le_div_right (Nat.le_succ n)

/-- Witness for C10 at a concrete one-entry over-threshold state. -/
theorem claim_C10_witness :
    (lfuFind c10State.nodeMap 1 = some (10, 3)
      ∧ 0 ≤ c10State.curTotalNum
      ∧ c10State.curAverageNum = c10State.curTotalNum.tdiv (c10State.nodeMap.length : Int)
      ∧ c10State.curAverageNum > c10State.maxAverageNum)
    ∧ (lfuGet 1 c10State).2.curAverageNum > c10State.maxAverageNum :=
  ⟨⟨by decide, by decide, by decide, by decide⟩,
   claim_C10_aging_frame.2.2 c10State 1 (10, 3)
     (by decide) (by decide) (by decide) (by decide)⟩

/-! ### Generic key-list lemmas for the ARC development -/

theorem eraseKey_sublist (l : List K) (k : K) : (eraseKey l k).Sublist l := by
  induction l with
  | nil => exact List.Sublist.refl []
  | cons x xs ih =>
      unfold eraseKey
      by_cases h : x = k
      · rw [if_pos h]
        exact List.sublist_cons_self x xs
      · rw [if_neg h]
        exact ih.cons₂ x

theorem mem_of_mem_eraseKey {l : List K} {k x : K} (h : x ∈ eraseKey l k) : x ∈ l :=
  (eraseKey_sublist l k).subset h

theorem nodup_eraseKey {l : List K} (k : K) (h : l.Nodup) : (eraseKey l k).Nodup :=
  h.sublist (eraseKey_sublist l k)

theorem not_mem_eraseKey_self {l : List K} {k : K} (hnd : l.Nodup) :
    ¬ k ∈ eraseKey l k := by
  induction l with
  | nil => simp [eraseKey]
  | cons x xs ih =>
      unfold eraseKey
      by_cases h : x = k
      · rw [if_pos h]
        intro hk
        exact (List.nodup_cons.mp hnd).1 (h ▸ hk)
      · rw [if_neg h]
        intro hk
        rcases List.mem_cons.mp hk with he | hm
        · exact h he.symm
        · exact ih (List.nodup_cons.mp hnd).2 hm

theorem not_mem_eraseKey_of_not_mem {l : List K} {k x : K} (h : ¬ x ∈ l) :
    ¬ x ∈ eraseKey l k := fun hm => h (mem_of_mem_eraseKey hm)

theorem filter_key_map_fst {α : Type} (l : List (K × α)) (k : K) :
    (l.filter (fun p => !decide (p.1 = k))).map Prod.fst
      = (l.map Prod.fst).filter (fun x => !decide (x = k)) := by
  induction l with
  | nil => rfl
  | cons p l ih =>
      by_cases h : p.1 = k <;> simp [h, ih]

theorem filter_key_eq_self {α : Type} {l : List (K × α)} {k : K}
    (h : ¬ k ∈ l.map Prod.fst) :
    l.filter (fun p => !decide (p.1 = k)) = l := by
  apply List.filter_eq_self.mpr
  intro p hp
  have : ¬ p.1 = k := fun he => h (he ▸ List.mem_map_of_mem Prod.fst hp)
  simpa using this

/-! ### ArcLruCache invariants (claim C8, T1 side) -/

omit [DecidableEq K] in
theorem arcLruEvict_spec (s : ArcLru K V)
    (hnd : (s.main.map Prod.fst).Nodup) (hgnd : s.ghost.Nodup)
    (hdisj : ∀ k, k ∈ s.main.map Prod.fst → k ∉ s.ghost)
    (hgl : s.ghost.length ≤ max s.ghostCapacity 1) :
    ((arcLruEvictLeastRecent s).main.map Prod.fst).Nodup
    ∧ (arcLruEvictLeastRecent s).ghost.Nodup
    ∧ (∀ k, k ∈ (arcLruEvictLeastRecent s).main.map Prod.fst
        → k ∉ (arcLruEvictLeastRecent s).ghost)
    ∧ (arcLruEvictLeastRecent s).capacity = s.capacity
    ∧ (arcLruEvictLeastRecent s).ghostCapacity = s.ghostCapacity
    ∧ (arcLruEvictLeastRecent s).main.length = s.main.length - 1
    ∧ (arcLruEvictLeastRecent s).ghost.length ≤ max s.ghostCapacity 1
    ∧ (∀ x, ¬ x ∈ s.ghost → ¬ x ∈ s.main.map Prod.fst
        → ¬ x ∈ (arcLruEvictLeastRecent s).ghost)
    ∧ (∀ x, x ∈ (arcLruEvictLeastRecent s).main.map Prod.fst
        → x ∈ s.main.map Prod.fst) := by
  unfold arcLruEvictLeastRecent
  cases hlast : s.main.getLast? with
  | none =>
      exact ⟨hnd, hgnd, hdisj, rfl, rfl, by
        rw [List.getLast?_eq_none_iff.mp hlast]; rfl, hgl, fun x hx _ => hx,
        fun x hx => hx⟩
  | some victim =>
      obtain ⟨M, hM⟩ := List.getLast?_eq_some_iff.mp hlast
      have hfst : s.main.map Prod.fst = M.map Prod.fst ++ [victim.1] := by
        rw [hM, List.map_append]
        rfl
      have hdrop : s.main.dropLast = M := by rw [hM, List.dropLast_concat]
      have hvic_main : victim.1 ∈ s.main.map Prod.fst := by
        rw [hfst]
        exact List.mem_append_right _ (List.mem_singleton.mpr rfl)
      have hvic_ghost : victim.1 ∉ s.ghost := hdisj victim.1 hvic_main
      have hndM : (M.map Prod.fst).Nodup ∧ victim.1 ∉ M.map Prod.fst := by
        rw [hfst] at hnd
        rw [List.nodup_append] at hnd
        exact ⟨hnd.1, fun hm => hnd.2.2 hm (List.mem_singleton.mpr rfl)⟩
      have hsub1 : ∀ x, x ∈ (if s.ghost.length ≥ s.ghostCapacity
          then s.ghost.dropLast else s.ghost) → x ∈ s.ghost := by
        intro x hx
        revert hx
        split
        · exact fun hx => (List.dropLast_sublist s.ghost).subset hx
        · exact id
      refine ⟨?_, ?_, ?_, rfl, rfl, ?_, ?_, ?_, ?_⟩
      · rw [hdrop]
        exact hndM.1
      · refine List.nodup_cons.mpr ⟨fun hm => hvic_ghost (hsub1 _ hm), ?_⟩
        revert hgnd
        split
        · exact fun hgnd => hgnd.sublist (List.dropLast_sublist s.ghost)
        · exact id
      · intro k hk
        rw [hdrop] at hk
        have hk_main : k ∈ s.main.map Prod.fst := by
          rw [hfst]
          exact List.mem_append_left _ hk
        intro hkg
        rcases List.mem_cons.mp hkg with he | hm
        · exact hndM.2 (he ▸ hk)
        · exact hdisj k hk_main (hsub1 _ hm)
      · rw [hM, List.dropLast_concat, List.length_append]
        simp
      · show (victim.1 :: _).length ≤ max s.ghostCapacity 1
        rw [List.length_cons]
        by_cases hfull : s.ghost.length ≥ s.ghostCapacity
        · rw [if_pos hfull]
          cases hg : s.ghost with
          | nil =>
              have hz : s.ghostCapacity = 0 := by
                rw [hg] at hfull
                simpa using hfull
              simp [hz]
          | cons g gs =>
              rw [List.length_dropLast]
              have hlen : (g :: gs).length ≤ max s.ghostCapacity 1 := hg ▸ hgl
              have hpos : 0 < (g :: gs).length := by simp
              omega
        · rw [if_neg hfull]
          omega
      · intro x hxg hxm hx
        rcases List.mem_cons.mp hx with he | hm
        · exact hxm (he ▸ hvic_main)
        · exact hxg (hsub1 _ hm)
      · intro x hx
        rw [hdrop] at hx
        rw [hfst]
        exact List.mem_append_left _ hx

theorem arcLruCheckGhost_spec (k : K) (s : ArcLru K V) (hgnd : s.ghost.Nodup) :
    (arcLruCheckGhost k s).2.main = s.main
    ∧ (arcLruCheckGhost k s).2.capacity = s.capacity
    ∧ (arcLruCheckGhost k s).2.ghostCapacity = s.ghostCapacity
    ∧ (arcLruCheckGhost k s).2.ghost.Nodup
    ∧ (∀ x, x ∈ (arcLruCheckGhost k s).2.ghost → x ∈ s.ghost)
    ∧ ¬ k ∈ (arcLruCheckGhost k s).2.ghost
    ∧ (arcLruCheckGhost k s).2.ghost.length ≤ s.ghost.length := by
  unfold arcLruCheckGhost
  split
  · exact ⟨rfl, rfl, rfl, nodup_eraseKey k hgnd,
      fun x hx => mem_of_mem_eraseKey hx, not_mem_eraseKey_self hgnd,
      (eraseKey_sublist s.ghost k).length_le⟩
  · next hcond =>
      refine ⟨rfl, rfl, rfl, hgnd, fun x hx => hx, ?_, Nat.le_refl _⟩
      intro hk
      exact hcond (List.any_eq_true.mpr ⟨k, hk, by simp⟩)

theorem perm_cons_filter_of_nodup {xs : List K} {k : K} (hmem : k ∈ xs)
    (hnd : xs.Nodup) :
    xs.Perm (k :: xs.filter (fun x => !decide (x = k))) := by
  induction xs with
  | nil => cases hmem
  | cons x xs ih =>
      rcases List.mem_cons.mp hmem with he | hm
      · have hx : ¬ x ∈ xs := (List.nodup_cons.mp hnd).1
        subst he
        have hfix : xs.filter (fun y => !decide (y = k)) = xs := by
          apply List.filter_eq_self.mpr
          intro a ha
          have : ¬ a = k := fun hak => hx (hak ▸ ha)
          simpa using this
        rw [List.filter_cons_of_neg (by simp), hfix]
      · have hxk : ¬ x = k := fun he2 => (List.nodup_cons.mp hnd).1 (he2 ▸ hm)
        have hperm := ih hm (List.nodup_cons.mp hnd).2
        rw [List.filter_cons_of_pos (by simpa using hxk)]
        exact (hperm.cons x).trans (List.Perm.swap k x _)

theorem arcLruFind_none_not_mem {s : ArcLru K V} {k : K}
    (h : arcLruFind s k = none) : ¬ k ∈ s.main.map Prod.fst := by
  intro hk
  obtain ⟨p, hp, hpk⟩ := List.mem_map.mp hk
  exact find_none_no_key (Option.map_eq_none'.mp h) p hp hpk

theorem arcLruFind_some_mem {s : ArcLru K V} {k : K} {pr : V × Nat}
    (h : arcLruFind s k = some pr) : k ∈ s.main.map Prod.fst := by
  obtain ⟨q, hq, hqpr⟩ := Option.map_eq_some'.mp h
  have hqm := List.mem_of_find?_eq_some hq
  have hqk : q.1 = k := by simpa using List.find?_some hq
  exact hqk ▸ List.mem_map_of_mem Prod.fst hqm

theorem mainErase_map_fst (m : List (K × V × Nat)) (k : K) :
    (arcLruMainErase m k).map Prod.fst
      = (m.map Prod.fst).filter (fun x => !decide (x = k)) :=
  filter_key_map_fst m k

theorem mainErase_length {m : List (K × V × Nat)} {k : K}
    (hnd : (m.map Prod.fst).Nodup) (hmem : k ∈ m.map Prod.fst) :
    (arcLruMainErase m k).length + 1 = m.length := by
  have hp := (perm_cons_filter_of_nodup hmem hnd).length_eq
  rw [List.length_cons] at hp
  have h1 : (arcLruMainErase m k).length
      = ((m.map Prod.fst).filter (fun x => !decide (x = k))).length := by
    rw [← mainErase_map_fst m k, List.length_map]
  rw [h1, ← List.length_map m Prod.fst]
  omega

theorem arcLruPut_WF (k : K) (v : V) (s : ArcLru K V) (h : ArcLruWF s)
    (hkg : ¬ k ∈ s.ghost) : ArcLruWF (arcLruPut k v s).2 := by
  obtain ⟨hnd, hgnd, hdisj, hlen, hgl⟩ := h
  unfold arcLruPut
  by_cases hc : s.capacity = 0
  · rw [if_pos hc]
    exact ⟨hnd, hgnd, hdisj, hlen, hgl⟩
  · rw [if_neg hc]
    cases hf : arcLruFind s k with
    | some pr =>
        show ArcLruWF { s with main := (k, v, pr.2) :: arcLruMainErase s.main k }
        have hkm := arcLruFind_some_mem hf
        refine ⟨?_, hgnd, ?_, ?_, hgl⟩
        · show (((k, v, pr.2) :: arcLruMainErase s.main k).map Prod.fst).Nodup
          rw [List.map_cons, mainErase_map_fst]
          refine List.nodup_cons.mpr ⟨?_, hnd.filter _⟩
          intro hk
          have := List.of_mem_filter hk
          simp at this
        · intro k2 hk2
          rw [List.map_cons, mainErase_map_fst] at hk2
          rcases List.mem_cons.mp hk2 with he | hm
          · exact he ▸ hdisj k hkm
          · exact hdisj k2 (List.mem_of_mem_filter hm)
        · show ((k, v, pr.2) :: arcLruMainErase s.main k).length ≤ s.capacity
          rw [List.length_cons]
          have := mainErase_length hnd hkm
          omega
    | none =>
        have hkm : ¬ k ∈ s.main.map Prod.fst := arcLruFind_none_not_mem hf
        by_cases hfull : s.main.length ≥ s.capacity
        · rw [if_pos hfull]
          have E := arcLruEvict_spec s hnd hgnd hdisj hgl
          show ArcLruWF { arcLruEvictLeastRecent s with
            main := (k, v, 1) :: (arcLruEvictLeastRecent s).main }
          have hkm2 : ¬ k ∈ (arcLruEvictLeastRecent s).main.map Prod.fst :=
            fun hk => hkm (E.2.2.2.2.2.2.2.2 k hk)
          have hkg2 : ¬ k ∈ (arcLruEvictLeastRecent s).ghost :=
            E.2.2.2.2.2.2.2.1 k hkg hkm
          refine ⟨?_, E.2.1, ?_, ?_, ?_⟩
          · rw [List.map_cons]
            exact List.nodup_cons.mpr ⟨hkm2, E.1⟩
          · intro k2 hk2
            rw [List.map_cons] at hk2
            rcases List.mem_cons.mp hk2 with he | hm
            · exact he ▸ hkg2
            · exact E.2.2.1 k2 hm
          · show ((k, v, 1) :: (arcLruEvictLeastRecent s).main).length
              ≤ (arcLruEvictLeastRecent s).capacity
            rw [List.length_cons, E.2.2.2.1, E.2.2.2.2.2.1]
            omega
          · rw [E.2.2.2.2.1]
            exact E.2.2.2.2.2.2.1
        · rw [if_neg hfull]
          show ArcLruWF { s with main := (k, v, 1) :: s.main }
          refine ⟨?_, hgnd, ?_, ?_, hgl⟩
          · rw [List.map_cons]
            exact List.nodup_cons.mpr ⟨hkm, hnd⟩
          · intro k2 hk2
            rw [List.map_cons] at hk2
            rcases List.mem_cons.mp hk2 with he | hm
            · exact he ▸ hkg
            · exact hdisj k2 hm
          · show ((k, v, 1) :: s.main).length ≤ s.capacity
            rw [List.length_cons]
            omega

theorem arcLruGet_WF (k : K) (s : ArcLru K V) (h : ArcLruWF s) :
    ArcLruWF (arcLruGet k s).2 := by
  obtain ⟨hnd, hgnd, hdisj, hlen, hgl⟩ := h
  unfold arcLruGet
  cases hf : arcLruFind s k with
  | some pr =>
      show ArcLruWF { s with main := (k, pr.1, pr.2 + 1) :: arcLruMainErase s.main k }
      have hkm := arcLruFind_some_mem hf
      refine ⟨?_, hgnd, ?_, ?_, hgl⟩
      · rw [List.map_cons, mainErase_map_fst]
        refine List.nodup_cons.mpr ⟨?_, hnd.filter _⟩
        intro hk
        have := List.of_mem_filter hk
        simp at this
      · intro k2 hk2
        rw [List.map_cons, mainErase_map_fst] at hk2
        rcases List.mem_cons.mp hk2 with he | hm
        · exact he ▸ hdisj k hkm
        · exact hdisj k2 (List.mem_of_mem_filter hm)
      · show ((k, pr.1, pr.2 + 1) :: arcLruMainErase s.main k).length ≤ s.capacity
        rw [List.length_cons]
        have := mainErase_length hnd hkm
        omega
  | none => exact ⟨hnd, hgnd, hdisj, hlen, hgl⟩

theorem arcLruCheckGhost_WF (k : K) (s : ArcLru K V) (h : ArcLruWF s) :
    ArcLruWF (arcLruCheckGhost k s).2 := by
  obtain ⟨hnd, hgnd, hdisj, hlen, hgl⟩ := h
  have C := arcLruCheckGhost_spec k s hgnd
  refine ⟨?_, C.2.2.2.1, ?_, ?_, ?_⟩
  · rw [C.1]
    exact hnd
  · intro k2 hk2
    rw [C.1] at hk2
    exact fun hg => hdisj k2 hk2 (C.2.2.2.2.1 k2 hg)
  · rw [C.1, C.2.1]
    exact hlen
  · rw [C.2.2.1]
    exact Nat.le_trans C.2.2.2.2.2.2 hgl

theorem arcLruDec_WF (s : ArcLru K V) (h : ArcLruWF s) :
    ArcLruWF (arcLruDecreaseCapacity s).2 := by
  obtain ⟨hnd, hgnd, hdisj, hlen, hgl⟩ := h
  unfold arcLruDecreaseCapacity
  by_cases hc : s.capacity = 0
  · rw [if_pos hc]
    exact ⟨hnd, hgnd, hdisj, hlen, hgl⟩
  · rw [if_neg hc]
    by_cases hfull : s.main.length = s.capacity
    · rw [if_pos hfull]
      have E := arcLruEvict_spec s hnd hgnd hdisj hgl
      refine ⟨E.1, E.2.1, E.2.2.1, ?_, ?_⟩
      · show (arcLruEvictLeastRecent s).main.length
          ≤ (arcLruEvictLeastRecent s).capacity - 1
        rw [E.2.2.2.2.2.1, E.2.2.2.1]
        omega
      · rw [E.2.2.2.2.1]
        exact E.2.2.2.2.2.2.1
    · rw [if_neg hfull]
      refine ⟨hnd, hgnd, hdisj, ?_, hgl⟩
      show s.main.length ≤ s.capacity - 1
      omega

theorem arcLruStepD_WF (op : ArcSubOp K V) (s : ArcLru K V) (h : ArcLruWF s) :
    ArcLruWF (arcLruStepD op s) := by
  cases op with
  | put k v =>
      have C := arcLruCheckGhost_spec k s h.2.1
      exact arcLruPut_WF k v _ (arcLruCheckGhost_WF k s h) C.2.2.2.2.2.1
  | get k => exact arcLruGet_WF k s h
  | checkGhost k => exact arcLruCheckGhost_WF k s h
  | increaseCapacity =>
      obtain ⟨hnd, hgnd, hdisj, hlen, hgl⟩ := h
      exact ⟨hnd, hgnd, hdisj, Nat.le_trans hlen (Nat.le_succ _), hgl⟩
  | decreaseCapacity => exact arcLruDec_WF s h

theorem arcLruRunD_WF (ops : List (ArcSubOp K V)) :
    ∀ s : ArcLru K V, ArcLruWF s → ArcLruWF (arcLruRunD ops s) := by
  induction ops with
  | nil => exact fun s h => h
  | cons op ops ih =>
      intro s h
      exact ih (arcLruStepD op s) (arcLruStepD_WF op s h)

theorem arcLruInit_WF (c t : Nat) : ArcLruWF (arcLruInit c t : ArcLru K V) :=
  ⟨List.nodup_nil, List.nodup_nil, fun _ h => absurd h (List.not_mem_nil _),
   Nat.zero_le c, Nat.zero_le _⟩

/-! ### ArcLfuCache bucket-table lemmas (claim C8, T2 side) -/

theorem perm_middle_append {A : Type} (X Y Z : List A) (p : A) :
    (X ++ (Y ++ [p]) ++ Z).Perm ((X ++ Y ++ Z) ++ [p]) := by
  have h1 : X ++ (Y ++ [p]) ++ Z = X ++ (Y ++ ([p] ++ Z)) := by
    simp [List.append_assoc]
  have h2 : X ++ (Y ++ (Z ++ [p])) = (X ++ Y ++ Z) ++ [p] := by
    simp [List.append_assoc]
  rw [h1, ← h2]
  exact List.Perm.append_left X (List.Perm.append_left Y List.perm_append_comm)

omit [DecidableEq K] in
theorem arcNodes_append_cons (B₁ B₂ : List (Nat × List (K × V × Nat)))
    (f : Nat) (l : List (K × V × Nat)) :
    arcNodes (B₁ ++ (f, l) :: B₂) = arcNodes B₁ ++ l ++ arcNodes B₂ := by
  unfold arcNodes
  rw [List.map_append, List.map_cons, List.flatten_append, List.flatten_cons]
  simp [List.append_assoc]

omit [DecidableEq K] in
theorem arcNodes_append (B₁ B₂ : List (Nat × List (K × V × Nat))) :
    arcNodes (B₁ ++ B₂) = arcNodes B₁ ++ arcNodes B₂ := by
  unfold arcNodes
  rw [List.map_append, List.flatten_append]

theorem arcBucketFind_eq_none {bs : List (Nat × List (K × V × Nat))} {f : Nat} :
    arcBucketFind bs f = none ↔ ¬ f ∈ bs.map Prod.fst := by
  unfold arcBucketFind
  rw [Option.map_eq_none', List.find?_eq_none]
  constructor
  · intro h hf
    obtain ⟨b, hb, hbf⟩ := List.mem_map.mp hf
    exact h b hb (by simpa using hbf)
  · intro h b hb
    intro hbf
    exact h (List.mem_map.mpr ⟨b, hb, by simpa using hbf⟩)

theorem arcBucketFind_isSome_of_mem {bs : List (Nat × List (K × V × Nat))} {f : Nat}
    (h : f ∈ bs.map Prod.fst) : ∃ l, arcBucketFind bs f = some l := by
  cases hf : arcBucketFind bs f with
  | some l => exact ⟨l, rfl⟩
  | none => exact absurd h (arcBucketFind_eq_none.mp hf)

theorem arcBucketFind_decomp {bs : List (Nat × List (K × V × Nat))} {f : Nat}
    {l : List (K × V × Nat)}
    (hnd : (bs.map Prod.fst).Nodup) (h : arcBucketFind bs f = some l) :
    ∃ bs₁ bs₂, bs = bs₁ ++ (f, l) :: bs₂
      ∧ ¬ f ∈ bs₁.map Prod.fst ∧ ¬ f ∈ bs₂.map Prod.fst := by
  induction bs with
  | nil => exact absurd h (by simp [arcBucketFind])
  | cons b bs ih =>
      by_cases hb : b.1 = f
      · refine ⟨[], bs, ?_, by simp, ?_⟩
        · unfold arcBucketFind at h
          rw [List.find?_cons_of_pos _ (by simpa using hb)] at h
          simp only [Option.map_some'] at h
          have : b = (f, l) := by
            rcases b with ⟨b1, b2⟩
            simp only at hb
            simp only [Option.some.injEq] at h
            rw [hb, h]
          rw [this]
          rfl
        · rw [List.map_cons, hb] at hnd
          exact (List.nodup_cons.mp hnd).1
      · unfold arcBucketFind at h
        rw [List.find?_cons_of_neg _ (by simpa using hb)] at h
        obtain ⟨bs₁, bs₂, heq, h1, h2⟩ :=
          ih (List.nodup_cons.mp (by rwa [List.map_cons] at hnd)).2 h
        refine ⟨b :: bs₁, bs₂, by rw [heq]; rfl, ?_, h2⟩
        rw [List.map_cons]
        intro hf
        rcases List.mem_cons.mp hf with he | hm
        · exact hb he.symm
        · exact h1 hm

theorem arcBucketSet_of_not_mem {bs : List (Nat × List (K × V × Nat))} {f : Nat}
    (h : ¬ f ∈ bs.map Prod.fst) (l' : List (K × V × Nat)) :
    arcBucketSet bs f l' = bs := by
  induction bs with
  | nil => rfl
  | cons b bs ih =>
      unfold arcBucketSet at *
      have hb : ¬ b.1 = f := fun he => h (by rw [List.map_cons]; exact he ▸ List.mem_cons_self _ _)
      rw [List.map_cons, if_neg hb, ih (fun hm => h (by rw [List.map_cons]; exact List.mem_cons_of_mem _ hm))]

theorem arcBucketSet_decomp {B₁ B₂ : List (Nat × List (K × V × Nat))} {f : Nat}
    (h₁ : ¬ f ∈ B₁.map Prod.fst) (h₂ : ¬ f ∈ B₂.map Prod.fst)
    (l l' : List (K × V × Nat)) :
    arcBucketSet (B₁ ++ (f, l) :: B₂) f l' = B₁ ++ (f, l') :: B₂ := by
  show (B₁ ++ (f, l) :: B₂).map _ = _
  rw [List.map_append, List.map_cons, if_pos rfl]
  show arcBucketSet B₁ f l' ++ (f, l') :: arcBucketSet B₂ f l' = _
  rw [arcBucketSet_of_not_mem h₁, arcBucketSet_of_not_mem h₂]

theorem arcBucketErase_of_not_mem {bs : List (Nat × List (K × V × Nat))} {f : Nat}
    (h : ¬ f ∈ bs.map Prod.fst) :
    arcBucketErase bs f = bs :=
  filter_key_eq_self h

theorem arcBucketErase_decomp {B₁ B₂ : List (Nat × List (K × V × Nat))} {f : Nat}
    (h₁ : ¬ f ∈ B₁.map Prod.fst) (h₂ : ¬ f ∈ B₂.map Prod.fst)
    (l : List (K × V × Nat)) :
    arcBucketErase (B₁ ++ (f, l) :: B₂) f = B₁ ++ B₂ := by
  show (B₁ ++ (f, l) :: B₂).filter _ = _
  rw [List.filter_append, List.filter_cons_of_neg (by simp)]
  show arcBucketErase B₁ f ++ arcBucketErase B₂ f = _
  rw [arcBucketErase_of_not_mem h₁, arcBucketErase_of_not_mem h₂]

theorem arcBucketInsertNew_perm (bs : List (Nat × List (K × V × Nat))) (f : Nat)
    (l : List (K × V × Nat)) :
    (arcBucketInsertNew bs f l).Perm ((f, l) :: bs) := by
  induction bs with
  | nil => exact List.Perm.refl _
  | cons b bs ih =>
      unfold arcBucketInsertNew
      by_cases hf : f < b.1
      · rw [if_pos hf]
      · rw [if_neg hf]
        exact (ih.cons b).trans (List.Perm.swap (f, l) b bs)

theorem arcNodes_perm_of_perm {bs bs2 : List (Nat × List (K × V × Nat))}
    (h : bs.Perm bs2) : (arcNodes bs).Perm (arcNodes bs2) :=
  List.Perm.flatten (h.map Prod.snd)

theorem arcBucketPushBack_spec (bs : List (Nat × List (K × V × Nat))) (f : Nat)
    (p : K × V × Nat) (hnd : (bs.map Prod.fst).Nodup)
    (h2 : ∀ b ∈ bs, b.2 ≠ []) (h3 : ∀ b ∈ bs, ∀ q ∈ b.2, q.2.2 = b.1)
    (hp : p.2.2 = f) :
    ((arcBucketPushBack bs f p).map Prod.fst).Nodup
    ∧ (∀ b ∈ arcBucketPushBack bs f p, b.2 ≠ [])
    ∧ (∀ b ∈ arcBucketPushBack bs f p, ∀ q ∈ b.2, q.2.2 = b.1)
    ∧ (arcNodes (arcBucketPushBack bs f p)).Perm (arcNodes bs ++ [p])
    ∧ f ∈ (arcBucketPushBack bs f p).map Prod.fst
    ∧ (∀ g ∈ bs.map Prod.fst, g ∈ (arcBucketPushBack bs f p).map Prod.fst) := by
  cases hfind : arcBucketFind bs f with
  | none =>
      have hred : arcBucketPushBack bs f p = arcBucketInsertNew bs f [p] := by
        unfold arcBucketPushBack
        rw [hfind]
      rw [hred]
      have hfresh : ¬ f ∈ bs.map Prod.fst := arcBucketFind_eq_none.mp hfind
      have hperm := arcBucketInsertNew_perm bs f [p]
      have hfreqs : ((arcBucketInsertNew bs f [p]).map Prod.fst).Perm
          (f :: bs.map Prod.fst) := hperm.map Prod.fst
      refine ⟨?_, ?_, ?_, ?_, ?_, ?_⟩
      · exact (List.Perm.nodup_iff hfreqs).mpr (List.nodup_cons.mpr ⟨hfresh, hnd⟩)
      · intro b hb
        rcases List.mem_cons.mp (hperm.mem_iff.mp hb) with he | hm
        · rw [he]; simp
        · exact h2 b hm
      · intro b hb q hq
        rcases List.mem_cons.mp (hperm.mem_iff.mp hb) with he | hm
        · rw [he] at hq ⊢
          have : q = p := List.mem_singleton.mp hq
          rw [this]
          exact hp
        · exact h3 b hm q hq
      · refine (arcNodes_perm_of_perm hperm).trans ?_
        show ([p] ++ arcNodes bs).Perm (arcNodes bs ++ [p])
        exact List.perm_append_comm
      · exact hfreqs.mem_iff.mpr (List.mem_cons_self _ _)
      · intro g hg
        exact hfreqs.mem_iff.mpr (List.mem_cons_of_mem _ hg)
  | some l2 =>
      have hred : arcBucketPushBack bs f p = arcBucketSet bs f (l2 ++ [p]) := by
        unfold arcBucketPushBack
        rw [hfind]
      obtain ⟨B₁, B₂, heq, hB₁, hB₂⟩ := arcBucketFind_decomp hnd hfind
      rw [hred, heq, arcBucketSet_decomp hB₁ hB₂ l2 (l2 ++ [p])]
      rw [heq] at hnd h2 h3
      have hfreqs : (B₁ ++ (f, l2 ++ [p]) :: B₂).map Prod.fst
          = (B₁ ++ (f, l2) :: B₂).map Prod.fst := by
        rw [List.map_append, List.map_append, List.map_cons, List.map_cons]
      refine ⟨?_, ?_, ?_, ?_, ?_, ?_⟩
      · rw [hfreqs]
        exact hnd
      · intro b hb
        rcases List.mem_append.mp hb with hm | hm
        · exact h2 b (List.mem_append_left _ hm)
        · rcases List.mem_cons.mp hm with he | hm2
          · rw [he]; simp
          · exact h2 b (List.mem_append_right _ (List.mem_cons_of_mem _ hm2))
      · intro b hb q hq
        rcases List.mem_append.mp hb with hm | hm
        · exact h3 b (List.mem_append_left _ hm) q hq
        · rcases List.mem_cons.mp hm with he | hm2
          · rw [he] at hq ⊢
            rcases List.mem_append.mp hq with hq2 | hq2
            · exact h3 (f, l2) (List.mem_append_right _ (List.mem_cons_self _ _)) q hq2
            · rw [List.mem_singleton.mp hq2]
              exact hp
          · exact h3 b (List.mem_append_right _ (List.mem_cons_of_mem _ hm2)) q hq
      · rw [arcNodes_append_cons, arcNodes_append_cons]
        exact perm_middle_append _ _ _ _
      · rw [hfreqs, List.map_append, List.map_cons]
        exact List.mem_append_right _ (List.mem_cons_self _ _)
      · intro g hg
        rw [hfreqs]
        exact hg

theorem sublist_append_middle {A : Type} (X Y Z : List A) : Y.Sublist (X ++ Y ++ Z) := by
  have h1 : Y.Sublist (Y ++ Z) := List.sublist_append_left Y Z
  have h2 : (Y ++ Z).Sublist (X ++ (Y ++ Z)) := List.sublist_append_right X (Y ++ Z)
  have h3 := h1.trans h2
  rwa [← List.append_assoc] at h3

theorem perm_append_cons_middle {A : Type} (X Y Z : List A) (a : A) :
    (X ++ (a :: Y) ++ Z).Perm (a :: (X ++ Y ++ Z)) := by
  have h1 : X ++ (a :: Y) ++ Z = X ++ a :: (Y ++ Z) := by
    simp [List.append_assoc]
  have h2 : a :: (X ++ Y ++ Z) = a :: (X ++ (Y ++ Z)) := by
    simp [List.append_assoc]
  rw [h1, h2]
  exact List.perm_middle

theorem arcLfuFind_bucket {s : ArcLfu K V} {k : K} {v : V} {c : Nat}
    (hndf : (s.buckets.map Prod.fst).Nodup)
    (h3 : ∀ b ∈ s.buckets, ∀ q ∈ b.2, q.2.2 = b.1)
    (h : arcLfuFind s k = some (v, c)) :
    ∃ l, arcBucketFind s.buckets c = some l ∧ k ∈ l.map Prod.fst := by
  obtain ⟨q, hq, hq2⟩ := Option.map_eq_some'.mp h
  have hqmem : q ∈ (s.buckets.map Prod.snd).flatten := List.mem_of_find?_eq_some hq
  have hqk : q.1 = k := by simpa using List.find?_some hq
  obtain ⟨l0, hl0, hql⟩ := List.mem_flatten.mp hqmem
  obtain ⟨b, hb, hbsnd⟩ := List.mem_map.mp hl0
  have hqb : q ∈ b.2 := by rw [hbsnd]; exact hql
  have hqc : q.2.2 = b.1 := h3 b hb q hqb
  have hc : b.1 = c := by
    rw [← hqc, hq2]
  obtain ⟨l, hl⟩ := arcBucketFind_isSome_of_mem (hc ▸ List.mem_map_of_mem Prod.fst hb)
  refine ⟨l, hl, ?_⟩
  obtain ⟨B₁, B₂, heq, h1, h2⟩ := arcBucketFind_decomp hndf hl
  have hbeq : b = (c, l) := by
    rw [heq] at hb
    rcases List.mem_append.mp hb with hm | hm
    · exact absurd (hc ▸ List.mem_map_of_mem Prod.fst hm) h1
    · rcases List.mem_cons.mp hm with he | hm2
      · exact he
      · exact absurd (hc ▸ List.mem_map_of_mem Prod.fst hm2) h2
  have hql2 : q ∈ l := by
    have := hbeq ▸ hqb
    exact this
  exact hqk ▸ List.mem_map_of_mem Prod.fst hql2

theorem keys_perm_helper {A : Type} (X Y Z Yk : List A) (k : A)
    (hY : Y.Perm (k :: Yk)) :
    ((X ++ Yk ++ Z) ++ [k]).Perm (X ++ Y ++ Z) := by
  have h1 : ((X ++ Yk ++ Z) ++ [k]).Perm (k :: (X ++ Yk ++ Z)) :=
    List.perm_append_comm
  have h2 : (X ++ (k :: Yk) ++ Z).Perm (k :: (X ++ Yk ++ Z)) :=
    perm_append_cons_middle X Yk Z k
  have h3 : (X ++ Y ++ Z).Perm (X ++ (k :: Yk) ++ Z) :=
    (List.Perm.append_left X hY).append_right Z
  exact h1.trans (h2.symm.trans h3.symm)

omit [DecidableEq K] in
theorem arcLfuSize_eq_keys_length (s : ArcLfu K V) :
    arcLfuSize s = (arcLfuKeys s).length := by
  unfold arcLfuSize arcLfuKeys
  rw [List.length_map, List.length_flatten, List.map_map]
  rfl

/-- `updateNodeFrequency` on a key found with counter `c` preserves the
bucket invariants, permutes the live keys (hence preserves the size), and
leaves ghost list and capacities untouched; `minFreq_` keeps pointing at an
existing bucket. -/
theorem arcLfuUpdateFreq_spec {s : ArcLfu K V} {k : K} {v w : V} {c : Nat}
    (W : ArcLfuWF s) (hfind : arcLfuFind s k = some (w, c)) :
    ((arcLfuUpdateNodeFrequency k v c s).buckets.map Prod.fst).Nodup
    ∧ (∀ b ∈ (arcLfuUpdateNodeFrequency k v c s).buckets, b.2 ≠ [])
    ∧ (∀ b ∈ (arcLfuUpdateNodeFrequency k v c s).buckets, ∀ q ∈ b.2, q.2.2 = b.1)
    ∧ (arcLfuKeys (arcLfuUpdateNodeFrequency k v c s)).Perm (arcLfuKeys s)
    ∧ (arcLfuUpdateNodeFrequency k v c s).ghost = s.ghost
    ∧ (arcLfuUpdateNodeFrequency k v c s).capacity = s.capacity
    ∧ (arcLfuUpdateNodeFrequency k v c s).ghostCapacity = s.ghostCapacity
    ∧ (¬ (arcLfuUpdateNodeFrequency k v c s).buckets = []
        → (arcLfuUpdateNodeFrequency k v c s).minFreq
            ∈ (arcLfuUpdateNodeFrequency k v c s).buckets.map Prod.fst) := by
  obtain ⟨hndf, h2, h3, hndk, -, -, -, -, hmf⟩ := W
  obtain ⟨l, hl, hkl⟩ := arcLfuFind_bucket hndf h3 hfind
  obtain ⟨B₁, B₂, heq, hB₁, hB₂⟩ := arcBucketFind_decomp hndf hl
  have hred : arcLfuUpdateNodeFrequency k v c s =
      { s with
        buckets := arcBucketPushBack
          (if (l.filter (fun p => !decide (p.1 = k))).isEmpty
           then arcBucketErase s.buckets c
           else arcBucketSet s.buckets c (l.filter (fun p => !decide (p.1 = k))))
          (c + 1) (k, v, c + 1),
        minFreq := if (l.filter (fun p => !decide (p.1 = k))).isEmpty
                      && decide (c = s.minFreq)
                   then c + 1 else s.minFreq } := by
    unfold arcLfuUpdateNodeFrequency
    simp only [hl, Option.getD_some]
  have hkeys_s : arcLfuKeys s
      = (arcNodes B₁).map Prod.fst ++ l.map Prod.fst ++ (arcNodes B₂).map Prod.fst := by
    show (arcNodes s.buckets).map Prod.fst = _
    rw [heq, arcNodes_append_cons, List.map_append, List.map_append]
  have hndk2 : ((arcNodes B₁).map Prod.fst ++ l.map Prod.fst
      ++ (arcNodes B₂).map Prod.fst).Nodup := hkeys_s ▸ hndk
  have hlknd : (l.map Prod.fst).Nodup :=
    hndk2.sublist (sublist_append_middle _ _ _)
  have hlperm : (l.map Prod.fst).Perm
      (k :: (l.map Prod.fst).filter (fun x => !decide (x = k))) :=
    perm_cons_filter_of_nodup hkl hlknd
  rw [hred]
  rw [heq] at hndf h2 h3 hmf
  rw [heq]
  have hsubT : (B₁ ++ B₂).Sublist (B₁ ++ (c, l) :: B₂) :=
    (List.sublist_cons_self (c, l) B₂).append_left B₁
  by_cases hl1 : (l.filter (fun p => !decide (p.1 = k))).isEmpty
  · -- the old bucket drains and is erased
    have hl1nil : l.filter (fun p => !decide (p.1 = k)) = [] := by
      cases hfl : l.filter (fun p => !decide (p.1 = k)) with
      | nil => rfl
      | cons a as =>
          rw [hfl] at hl1
          exact Bool.noConfusion hl1
    rw [if_pos hl1, arcBucketErase_decomp hB₁ hB₂ l]
    simp only [hl1, Bool.true_and, decide_eq_true_eq]
    have hndT : ((B₁ ++ B₂).map Prod.fst).Nodup :=
      hndf.sublist (hsubT.map Prod.fst)
    have h2T : ∀ b ∈ B₁ ++ B₂, b.2 ≠ [] := fun b hb => h2 b (hsubT.subset hb)
    have h3T : ∀ b ∈ B₁ ++ B₂, ∀ q ∈ b.2, q.2.2 = b.1 :=
      fun b hb => h3 b (hsubT.subset hb)
    have P := arcBucketPushBack_spec (B₁ ++ B₂) (c + 1) (k, v, c + 1) hndT h2T h3T rfl
    refine ⟨?_, ?_, ?_, ?_, ?_, ?_, ?_, ?_⟩
    · exact P.1
    · exact P.2.1
    · exact P.2.2.1
    · show ((arcNodes (arcBucketPushBack (B₁ ++ B₂) (c + 1) (k, v, c + 1))).map
          Prod.fst).Perm (arcLfuKeys s)
      have hp1 := (P.2.2.2.1).map Prod.fst
      have hEq : (arcNodes (B₁ ++ B₂) ++ [((k, v, c + 1) : K × V × Nat)]).map Prod.fst
          = ((arcNodes B₁).map Prod.fst ++ (arcNodes B₂).map Prod.fst) ++ [k] := by
        rw [List.map_append, arcNodes_append, List.map_append]
        simp
      rw [hEq] at hp1
      have hYk : (l.map Prod.fst).Perm (k :: ([] : List K)) := by
        have h0 : (l.map Prod.fst).filter (fun x => !decide (x = k)) = [] := by
          rw [← filter_key_map_fst l k, hl1nil]
          simp
        rw [← h0]
        exact hlperm
      have hkperm := keys_perm_helper ((arcNodes B₁).map Prod.fst) (l.map Prod.fst)
        ((arcNodes B₂).map Prod.fst) ([] : List K) k hYk
      have hfix : (arcNodes B₁).map Prod.fst ++ ([] : List K)
          ++ (arcNodes B₂).map Prod.fst
          = (arcNodes B₁).map Prod.fst ++ (arcNodes B₂).map Prod.fst := by simp
      rw [hfix] at hkperm
      rw [hkeys_s]
      exact hp1.trans hkperm
    · trivial
    · trivial
    · trivial
    · intro _
      show (if c = s.minFreq then c + 1 else s.minFreq)
          ∈ (arcBucketPushBack (B₁ ++ B₂) (c + 1) (k, v, c + 1)).map Prod.fst
      by_cases hcm : c = s.minFreq
      · rw [if_pos hcm]
        exact P.2.2.2.2.1
      · rw [if_neg hcm]
        have hmem : s.minFreq ∈ (B₁ ++ (c, l) :: B₂).map Prod.fst := hmf (by simp)
        have hmem2 : s.minFreq ∈ (B₁ ++ B₂).map Prod.fst := by
          rw [List.map_append] at hmem ⊢
          rcases List.mem_append.mp hmem with h | h
          · exact List.mem_append_left _ h
          · rw [List.map_cons] at h
            rcases List.mem_cons.mp h with he | hm
            · exact absurd he.symm hcm
            · exact List.mem_append_right _ hm
        exact P.2.2.2.2.2 s.minFreq hmem2
  · -- other nodes remain in the old bucket
    have hl1ne : l.filter (fun p => !decide (p.1 = k)) ≠ [] := by
      intro h0
      exact hl1 (by rw [h0]; rfl)
    have hl1f : (l.filter (fun p => !decide (p.1 = k))).isEmpty = false := by
      simpa using hl1
    rw [if_neg hl1, arcBucketSet_decomp hB₁ hB₂ l _]
    simp only [hl1f, Bool.false_and]
    rw [if_neg Bool.false_ne_true]
    have hfreqsT2 : (B₁ ++ (c, l.filter (fun p => !decide (p.1 = k))) :: B₂).map Prod.fst
        = (B₁ ++ (c, l) :: B₂).map Prod.fst := by
      rw [List.map_append, List.map_append, List.map_cons, List.map_cons]
    have hndT2 : ((B₁ ++ (c, l.filter (fun p => !decide (p.1 = k))) :: B₂).map
        Prod.fst).Nodup := by
      rw [hfreqsT2]
      exact hndf
    have h2T2 : ∀ b ∈ B₁ ++ (c, l.filter (fun p => !decide (p.1 = k))) :: B₂,
        b.2 ≠ [] := by
      intro b hb
      rcases List.mem_append.mp hb with hm | hm
      · exact h2 b (List.mem_append_left _ hm)
      · rcases List.mem_cons.mp hm with he | hm2
        · rw [he]
          exact hl1ne
        · exact h2 b (List.mem_append_right _ (List.mem_cons_of_mem _ hm2))
    have h3T2 : ∀ b ∈ B₁ ++ (c, l.filter (fun p => !decide (p.1 = k))) :: B₂,
        ∀ q ∈ b.2, q.2.2 = b.1 := by
      intro b hb q hq
      rcases List.mem_append.mp hb with hm | hm
      · exact h3 b (List.mem_append_left _ hm) q hq
      · rcases List.mem_cons.mp hm with he | hm2
        · rw [he] at hq ⊢
          exact h3 (c, l) (List.mem_append_right _ (List.mem_cons_self _ _)) q
            (List.mem_of_mem_filter hq)
        · exact h3 b (List.mem_append_right _ (List.mem_cons_of_mem _ hm2)) q hq
    have P := arcBucketPushBack_spec
      (B₁ ++ (c, l.filter (fun p => !decide (p.1 = k))) :: B₂) (c + 1)
      (k, v, c + 1) hndT2 h2T2 h3T2 rfl
    refine ⟨?_, ?_, ?_, ?_, ?_, ?_, ?_, ?_⟩
    · exact P.1
    · exact P.2.1
    · exact P.2.2.1
    · show ((arcNodes (arcBucketPushBack
          (B₁ ++ (c, l.filter (fun p => !decide (p.1 = k))) :: B₂) (c + 1)
          (k, v, c + 1))).map Prod.fst).Perm (arcLfuKeys s)
      have hp1 := (P.2.2.2.1).map Prod.fst
      have hEq2 : (arcNodes (B₁ ++ (c, l.filter (fun p => !decide (p.1 = k))) :: B₂)
            ++ [((k, v, c + 1) : K × V × Nat)]).map Prod.fst
          = ((arcNodes B₁).map Prod.fst
              ++ (l.filter (fun p => !decide (p.1 = k))).map Prod.fst
              ++ (arcNodes B₂).map Prod.fst) ++ [k] := by
        rw [List.map_append, arcNodes_append_cons, List.map_append, List.map_append]
        simp
      rw [hEq2] at hp1
      have hY : (l.map Prod.fst).Perm
          (k :: (l.filter (fun p => !decide (p.1 = k))).map Prod.fst) :=
        (filter_key_map_fst l k).symm ▸ hlperm
      have hkperm := keys_perm_helper ((arcNodes B₁).map Prod.fst) (l.map Prod.fst)
        ((arcNodes B₂).map Prod.fst)
        ((l.filter (fun p => !decide (p.1 = k))).map Prod.fst) k hY
      rw [hkeys_s]
      exact hp1.trans hkperm
    · trivial
    · trivial
    · trivial
    · intro _
      show s.minFreq ∈ (arcBucketPushBack
          (B₁ ++ (c, l.filter (fun p => !decide (p.1 = k))) :: B₂) (c + 1)
          (k, v, c + 1)).map Prod.fst
      have hmem : s.minFreq ∈ (B₁ ++ (c, l) :: B₂).map Prod.fst := hmf (by simp)
      exact P.2.2.2.2.2 s.minFreq (hfreqsT2.symm ▸ hmem)

theorem evict_core {ks ke gs ge : List K} {x : K}
    (hndk : ks.Nodup)
    (hdisj : ∀ y ∈ ks, y ∉ gs)
    (hperm : ks.Perm (x :: ke))
    (hgorig : ∀ y ∈ ge, y ∈ gs ∨ y = x) :
    (x :: ke).Nodup
    ∧ (∀ y ∈ ke, y ∉ ge)
    ∧ ke.length + 1 = ks.length := by
  have hcons : (x :: ke).Nodup := (hperm.nodup_iff).mp hndk
  refine ⟨hcons, ?_, ?_⟩
  · intro y hy hyg
    rcases hgorig y hyg with h | h
    · exact hdisj y (hperm.mem_iff.mpr (List.mem_cons_of_mem _ hy)) h
    · exact (List.nodup_cons.mp hcons).1 (h ▸ hy)
  · have hlen := hperm.length_eq
    rw [List.length_cons] at hlen
    omega

/-- `evictLeastFrequent` on a well-formed non-empty cache removes exactly
one live key (the front of the `minFreq_` bucket) and appends it to the
ghost list, preserving all structural invariants. -/
theorem arcLfuEvict_spec {s : ArcLfu K V} (W : ArcLfuWF s) (hne : ¬ s.buckets = []) :
    ∃ x,
      x ∈ arcLfuKeys s
      ∧ (arcLfuKeys s).Perm (x :: arcLfuKeys (arcLfuEvictLeastFrequent s))
      ∧ (x :: arcLfuKeys (arcLfuEvictLeastFrequent s)).Nodup
      ∧ (∀ y ∈ (arcLfuEvictLeastFrequent s).ghost, y ∈ s.ghost ∨ y = x)
      ∧ ((arcLfuEvictLeastFrequent s).buckets.map Prod.fst).Nodup
      ∧ (∀ b ∈ (arcLfuEvictLeastFrequent s).buckets, b.2 ≠ [])
      ∧ (∀ b ∈ (arcLfuEvictLeastFrequent s).buckets, ∀ q ∈ b.2, q.2.2 = b.1)
      ∧ (arcLfuEvictLeastFrequent s).ghost.Nodup
      ∧ (∀ y ∈ arcLfuKeys (arcLfuEvictLeastFrequent s), y ∉ (arcLfuEvictLeastFrequent s).ghost)
      ∧ arcLfuSize (arcLfuEvictLeastFrequent s) + 1 = arcLfuSize s
      ∧ (arcLfuEvictLeastFrequent s).ghost.length ≤ max s.ghostCapacity 1
      ∧ (arcLfuEvictLeastFrequent s).capacity = s.capacity
      ∧ (arcLfuEvictLeastFrequent s).ghostCapacity = s.ghostCapacity
      ∧ (¬ (arcLfuEvictLeastFrequent s).buckets = []
          → (arcLfuEvictLeastFrequent s).minFreq
              ∈ (arcLfuEvictLeastFrequent s).buckets.map Prod.fst) := by
  obtain ⟨hndf, h2, h3, hndk, hgnd, hdisj, -, hglen, hmf⟩ := W
  have hfreq : s.minFreq ∈ s.buckets.map Prod.fst := hmf hne
  obtain ⟨l, hl⟩ := arcBucketFind_isSome_of_mem hfreq
  obtain ⟨B₁, B₂, heq, hB₁, hB₂⟩ := arcBucketFind_decomp hndf hl
  have hlmem : (s.minFreq, l) ∈ s.buckets := by
    rw [heq]
    exact List.mem_append_right _ (List.mem_cons_self _ _)
  have hlne : l ≠ [] := h2 (s.minFreq, l) hlmem
  have hempty : s.buckets.isEmpty = false := by
    rw [heq]
    cases B₁ <;> rfl
  have hkeys_s : arcLfuKeys s
      = (arcNodes B₁).map Prod.fst ++ l.map Prod.fst ++ (arcNodes B₂).map Prod.fst := by
    show (arcNodes s.buckets).map Prod.fst = _
    rw [heq, arcNodes_append_cons, List.map_append, List.map_append]
  rw [heq] at hndf h2 h3 hfreq
  cases l with
  | nil => exact absurd rfl hlne
  | cons victim rest =>
  have hxmem : victim.1 ∈ arcLfuKeys s := by
    rw [hkeys_s]
    exact List.mem_append_left _ (List.mem_append_right _ (List.mem_cons_self _ _))
  have hxg : victim.1 ∉ s.ghost := hdisj victim.1 hxmem
  have hg1sub : ∀ y ∈ (if s.ghost.length ≥ s.ghostCapacity then s.ghost.tail else s.ghost),
      y ∈ s.ghost := by
    intro y hy
    split at hy
    · exact List.mem_of_mem_tail hy
    · exact hy
  have hg1nd : (if s.ghost.length ≥ s.ghostCapacity then s.ghost.tail else s.ghost).Nodup := by
    split
    · exact hgnd.sublist (List.tail_sublist _)
    · exact hgnd
  have hgnd2 : ((if s.ghost.length ≥ s.ghostCapacity then s.ghost.tail else s.ghost)
      ++ [victim.1]).Nodup := by
    rw [List.nodup_append]
    exact ⟨hg1nd, List.nodup_singleton _,
      fun y hy hy2 => hxg ((List.mem_singleton.mp hy2) ▸ hg1sub y hy)⟩
  have hglen2 : ((if s.ghost.length ≥ s.ghostCapacity then s.ghost.tail else s.ghost)
      ++ [victim.1]).length ≤ max s.ghostCapacity 1 := by
    rw [List.length_append, List.length_singleton]
    split
    · next hge =>
        rw [List.length_tail]
        omega
    · next hlt =>
        omega
  have hgorig : ∀ y ∈ (if s.ghost.length ≥ s.ghostCapacity then s.ghost.tail else s.ghost)
      ++ [victim.1], y ∈ s.ghost ∨ y = victim.1 := by
    intro y hy
    rcases List.mem_append.mp hy with hm | hm
    · exact Or.inl (hg1sub y hm)
    · exact Or.inr (List.mem_singleton.mp hm)
  cases rest with
  | nil =>
      have hredA : arcLfuEvictLeastFrequent s =
          { s with buckets := arcBucketErase s.buckets s.minFreq,
                   minFreq := match (arcBucketErase s.buckets s.minFreq).head? with
                              | some b => b.1
                              | none => s.minFreq,
                   ghost := (if s.ghost.length ≥ s.ghostCapacity then s.ghost.tail
                             else s.ghost) ++ [victim.1] } := by
        unfold arcLfuEvictLeastFrequent
        rw [if_neg (by rw [hempty]; exact Bool.false_ne_true), hl]
        rfl
      have herase : arcBucketErase s.buckets s.minFreq = B₁ ++ B₂ := by
        rw [heq]
        exact arcBucketErase_decomp hB₁ hB₂ _
      rw [hredA, herase]
      have hsubT : (B₁ ++ B₂).Sublist (B₁ ++ (s.minFreq, [victim]) :: B₂) :=
        (List.sublist_cons_self (s.minFreq, [victim]) B₂).append_left B₁
      have hndT : ((B₁ ++ B₂).map Prod.fst).Nodup := hndf.sublist (hsubT.map Prod.fst)
      have hperm : (arcLfuKeys s).Perm (victim.1 :: (arcNodes (B₁ ++ B₂)).map Prod.fst) := by
        rw [hkeys_s, arcNodes_append, List.map_append]
        have hpm := perm_append_cons_middle ((arcNodes B₁).map Prod.fst) ([] : List K)
          ((arcNodes B₂).map Prod.fst) victim.1
        rw [List.append_nil] at hpm
        exact hpm
      have core := evict_core hndk hdisj hperm hgorig
      refine ⟨victim.1, hxmem, hperm, core.1, hgorig, hndT, ?_, ?_, hgnd2, core.2.1, ?_,
        hglen2, rfl, rfl, ?_⟩
      · intro b hb
        exact h2 b (hsubT.subset hb)
      · intro b hb
        exact h3 b (hsubT.subset hb)
      · rw [arcLfuSize_eq_keys_length, arcLfuSize_eq_keys_length]
        exact core.2.2
      · intro hne2
        show (match (B₁ ++ B₂).head? with | some b => b.1 | none => s.minFreq)
            ∈ (B₁ ++ B₂).map Prod.fst
        cases hT : B₁ ++ B₂ with
        | nil => exact absurd hT hne2
        | cons b T => exact List.mem_cons_self _ _
  | cons r rs =>
      have hredB : arcLfuEvictLeastFrequent s =
          { s with buckets := arcBucketSet s.buckets s.minFreq (r :: rs),
                   ghost := (if s.ghost.length ≥ s.ghostCapacity then s.ghost.tail
                             else s.ghost) ++ [victim.1] } := by
        unfold arcLfuEvictLeastFrequent
        rw [if_neg (by rw [hempty]; exact Bool.false_ne_true), hl]
        rfl
      have hset : arcBucketSet s.buckets s.minFreq (r :: rs)
          = B₁ ++ (s.minFreq, r :: rs) :: B₂ := by
        rw [heq]
        exact arcBucketSet_decomp hB₁ hB₂ _ _
      rw [hredB, hset]
      have hfreqsT2 : (B₁ ++ (s.minFreq, r :: rs) :: B₂).map Prod.fst
          = (B₁ ++ (s.minFreq, victim :: r :: rs) :: B₂).map Prod.fst := by
        rw [List.map_append, List.map_append, List.map_cons, List.map_cons]
      have hperm : (arcLfuKeys s).Perm
          (victim.1 :: (arcNodes (B₁ ++ (s.minFreq, r :: rs) :: B₂)).map Prod.fst) := by
        rw [hkeys_s, arcNodes_append_cons, List.map_append, List.map_append]
        exact perm_append_cons_middle _ _ _ _
      have core := evict_core hndk hdisj hperm hgorig
      refine ⟨victim.1, hxmem, hperm, core.1, hgorig, ?_, ?_, ?_, hgnd2, core.2.1, ?_,
        hglen2, rfl, rfl, ?_⟩
      · show ((B₁ ++ (s.minFreq, r :: rs) :: B₂).map Prod.fst).Nodup
        rw [hfreqsT2]
        exact hndf
      · intro b hb
        rcases List.mem_append.mp hb with hm | hm
        · exact h2 b (List.mem_append_left _ hm)
        · rcases List.mem_cons.mp hm with he | hm2
          · rw [he]
            exact List.cons_ne_nil _ _
          · exact h2 b (List.mem_append_right _ (List.mem_cons_of_mem _ hm2))
      · intro b hb q hq
        rcases List.mem_append.mp hb with hm | hm
        · exact h3 b (List.mem_append_left _ hm) q hq
        · rcases List.mem_cons.mp hm with he | hm2
          · rw [he] at hq ⊢
            exact h3 (s.minFreq, victim :: r :: rs)
              (List.mem_append_right _ (List.mem_cons_self _ _)) q
              (List.mem_cons_of_mem _ hq)
          · exact h3 b (List.mem_append_right _ (List.mem_cons_of_mem _ hm2)) q hq
      · rw [arcLfuSize_eq_keys_length, arcLfuSize_eq_keys_length]
        exact core.2.2
      · intro _
        show s.minFreq ∈ (B₁ ++ (s.minFreq, r :: rs) :: B₂).map Prod.fst
        rw [hfreqsT2]
        exact hfreq

theorem arcLfuFind_none_not_mem {s : ArcLfu K V} {k : K}
    (h : arcLfuFind s k = none) : ¬ k ∈ arcLfuKeys s := by
  intro hk
  obtain ⟨p, hp, hpk⟩ := List.mem_map.mp hk
  exact find_none_no_key (Option.map_eq_none'.mp h) p hp hpk

/-- `ArcLfuCache::checkGhost` touches only the ghost list: it removes the
key (if present) and leaves everything else alone. -/
theorem arcLfuCheckGhost_spec (k : K) (s : ArcLfu K V) (hgnd : s.ghost.Nodup) :
    (arcLfuCheckGhost k s).2.buckets = s.buckets
    ∧ (arcLfuCheckGhost k s).2.minFreq = s.minFreq
    ∧ (arcLfuCheckGhost k s).2.capacity = s.capacity
    ∧ (arcLfuCheckGhost k s).2.ghostCapacity = s.ghostCapacity
    ∧ (arcLfuCheckGhost k s).2.ghost.Nodup
    ∧ (∀ x ∈ (arcLfuCheckGhost k s).2.ghost, x ∈ s.ghost)
    ∧ ¬ k ∈ (arcLfuCheckGhost k s).2.ghost
    ∧ (arcLfuCheckGhost k s).2.ghost.length ≤ s.ghost.length := by
  unfold arcLfuCheckGhost
  split
  · exact ⟨rfl, rfl, rfl, rfl, nodup_eraseKey k hgnd,
      fun x hx => mem_of_mem_eraseKey hx, not_mem_eraseKey_self hgnd,
      (eraseKey_sublist s.ghost k).length_le⟩
  · next hcond =>
      refine ⟨rfl, rfl, rfl, rfl, hgnd, fun x hx => hx, ?_, Nat.le_refl _⟩
      intro hk
      exact hcond (List.any_eq_true.mpr ⟨k, hk, by simp⟩)

theorem arcLfuCheckGhost_WF (k : K) {s : ArcLfu K V} (W : ArcLfuWF s) :
    ArcLfuWF (arcLfuCheckGhost k s).2 := by
  obtain ⟨w1, w2, w3, w4, w5, w6, w7, w8, w9⟩ := W
  obtain ⟨hb, hm, hc, hg, hnd, hsub, -, hlen⟩ := arcLfuCheckGhost_spec k s w5
  have hkeys : arcLfuKeys (arcLfuCheckGhost k s).2 = arcLfuKeys s := by
    unfold arcLfuKeys
    rw [hb]
  have hsz : arcLfuSize (arcLfuCheckGhost k s).2 = arcLfuSize s := by
    unfold arcLfuSize
    rw [hb]
  refine ⟨?_, ?_, ?_, ?_, hnd, ?_, ?_, ?_, ?_⟩
  · rw [hb]; exact w1
  · rw [hb]; exact w2
  · rw [hb]; exact w3
  · rw [hkeys]; exact w4
  · intro y hy hyg
    rw [hkeys] at hy
    exact w6 y hy (hsub y hyg)
  · rw [hsz, hc]; exact w7
  · rw [hg]
    exact Nat.le_trans hlen w8
  · rw [hb, hm]; exact w9

theorem arcLfuUpdateFreq_WF {s : ArcLfu K V} {k : K} {v w : V} {c : Nat}
    (W : ArcLfuWF s) (hfind : arcLfuFind s k = some (w, c)) :
    ArcLfuWF (arcLfuUpdateNodeFrequency k v c s) := by
  obtain ⟨U1, U2, U3, U4, U5, U6, U7, U8⟩ := arcLfuUpdateFreq_spec (v := v) W hfind
  obtain ⟨-, -, -, w4, w5, w6, w7, w8, -⟩ := W
  refine ⟨U1, U2, U3, ?_, ?_, ?_, ?_, ?_, U8⟩
  · exact (U4.nodup_iff).mpr w4
  · rw [U5]; exact w5
  · intro y hy
    rw [U5]
    exact w6 y (U4.mem_iff.mp hy)
  · rw [arcLfuSize_eq_keys_length, U6, U4.length_eq, ← arcLfuSize_eq_keys_length]
    exact w7
  · rw [U5, U7]; exact w8

/-- inserting a fresh key at frequency 1 into a strictly non-full
well-formed state keeps the state well-formed -/
theorem arcLfuPush_WF (k : K) (v : V) {s1 : ArcLfu K V}
    (h1 : (s1.buckets.map Prod.fst).Nodup)
    (h2 : ∀ b ∈ s1.buckets, b.2 ≠ [])
    (h3 : ∀ b ∈ s1.buckets, ∀ q ∈ b.2, q.2.2 = b.1)
    (h4 : (arcLfuKeys s1).Nodup)
    (h5 : s1.ghost.Nodup)
    (h6 : ∀ y ∈ arcLfuKeys s1, y ∉ s1.ghost)
    (h7 : arcLfuSize s1 < s1.capacity)
    (h8 : s1.ghost.length ≤ max s1.ghostCapacity 1)
    (hk : k ∉ arcLfuKeys s1) (hkg : k ∉ s1.ghost) :
    ArcLfuWF { s1 with buckets := arcBucketPushBack s1.buckets 1 (k, v, 1),
                       minFreq := 1 } := by
  have P := arcBucketPushBack_spec s1.buckets 1 (k, v, 1) h1 h2 h3 rfl
  have hmaps : (arcNodes s1.buckets ++ [((k, v, 1) : K × V × Nat)]).map Prod.fst
      = arcLfuKeys s1 ++ [k] := by
    rw [List.map_append]
    rfl
  have hkeysr : (arcLfuKeys { s1 with buckets := arcBucketPushBack s1.buckets 1 (k, v, 1),
                                       minFreq := 1 }).Perm (arcLfuKeys s1 ++ [k]) := by
    have hp := (P.2.2.2.1).map Prod.fst
    rw [hmaps] at hp
    exact hp
  have happnd : (arcLfuKeys s1 ++ [k]).Nodup := by
    rw [List.nodup_append]
    exact ⟨h4, List.nodup_singleton _,
      fun y hy hy2 => hk ((List.mem_singleton.mp hy2) ▸ hy)⟩
  refine ⟨P.1, P.2.1, P.2.2.1, ?_, h5, ?_, ?_, h8, ?_⟩
  · exact (hkeysr.nodup_iff).mpr happnd
  · intro y hy
    rcases List.mem_append.mp (hkeysr.mem_iff.mp hy) with hm | hm
    · exact h6 y hm
    · exact (List.mem_singleton.mp hm) ▸ hkg
  · rw [arcLfuSize_eq_keys_length, hkeysr.length_eq, List.length_append,
      List.length_singleton, ← arcLfuSize_eq_keys_length]
    exact h7
  · intro _
    exact P.2.2.2.2.1

theorem arcLfuAddNewNode_WF (k : K) (v : V) {s : ArcLfu K V} (W : ArcLfuWF s)
    (hk : k ∉ arcLfuKeys s) (hkg : k ∉ s.ghost) (hcap : s.capacity ≠ 0) :
    ArcLfuWF (arcLfuAddNewNode k v s) := by
  have W' := W
  obtain ⟨w1, w2, w3, w4, w5, w6, w7, w8, w9⟩ := W'
  unfold arcLfuAddNewNode
  by_cases hfull : arcLfuSize s ≥ s.capacity
  · rw [if_pos hfull]
    have hszpos : 0 < arcLfuSize s :=
      Nat.lt_of_lt_of_le (Nat.pos_of_ne_zero hcap) hfull
    have hbne : ¬ s.buckets = [] := by
      intro h0
      have hz : arcLfuSize s = 0 := by
        unfold arcLfuSize
        rw [h0]
        rfl
      omega
    obtain ⟨x, hx1, hx2, hx3, hx4, hx5, hx6, hx7, hx8, hx9, hx10, hx11, hx12, hx13, hx14⟩ :=
      arcLfuEvict_spec W hbne
    have hknew : k ∉ arcLfuKeys (arcLfuEvictLeastFrequent s) := by
      intro hm
      exact hk (hx2.mem_iff.mpr (List.mem_cons_of_mem _ hm))
    have hkgnew : k ∉ (arcLfuEvictLeastFrequent s).ghost := by
      intro hm
      rcases hx4 k hm with h | h
      · exact hkg h
      · exact hk (h ▸ hx1)
    have hszlt : arcLfuSize (arcLfuEvictLeastFrequent s)
        < (arcLfuEvictLeastFrequent s).capacity := by
      rw [hx12]
      omega
    have hglen : (arcLfuEvictLeastFrequent s).ghost.length
        ≤ max (arcLfuEvictLeastFrequent s).ghostCapacity 1 := by
      rw [hx13]
      exact hx11
    exact arcLfuPush_WF k v hx5 hx6 hx7 ((List.nodup_cons.mp hx3).2) hx8 hx9
      hszlt hglen hknew hkgnew
  · rw [if_neg hfull]
    exact arcLfuPush_WF k v w1 w2 w3 w4 w5 w6 (by omega) w8 hk hkg

theorem arcLfuPut_WF (k : K) (v : V) {s : ArcLfu K V} (W : ArcLfuWF s)
    (hkg : k ∉ s.ghost) : ArcLfuWF (arcLfuPut k v s).2 := by
  unfold arcLfuPut
  by_cases hc : s.capacity = 0
  · rw [if_pos hc]
    exact W
  · rw [if_neg hc]
    cases hf : arcLfuFind s k with
    | some pr =>
        exact arcLfuUpdateFreq_WF W (by rw [hf])
    | none =>
        exact arcLfuAddNewNode_WF k v W (arcLfuFind_none_not_mem hf) hkg hc

theorem arcLfuGet_WF (k : K) {s : ArcLfu K V} (W : ArcLfuWF s) :
    ArcLfuWF (arcLfuGet k s).2 := by
  unfold arcLfuGet
  cases hf : arcLfuFind s k with
  | some pr =>
      exact arcLfuUpdateFreq_WF W (by rw [hf])
  | none =>
      exact W

theorem arcLfuInc_WF {s : ArcLfu K V} (W : ArcLfuWF s) :
    ArcLfuWF (arcLfuIncreaseCapacity s) := by
  obtain ⟨w1, w2, w3, w4, w5, w6, w7, w8, w9⟩ := W
  exact ⟨w1, w2, w3, w4, w5, w6, Nat.le_succ_of_le w7, w8, w9⟩

theorem arcLfuDec_WF {s : ArcLfu K V} (W : ArcLfuWF s) :
    ArcLfuWF (arcLfuDecreaseCapacity s).2 := by
  have W' := W
  obtain ⟨w1, w2, w3, w4, w5, w6, w7, w8, w9⟩ := W'
  unfold arcLfuDecreaseCapacity
  by_cases hc : s.capacity = 0
  · rw [if_pos hc]
    exact W
  · rw [if_neg hc]
    by_cases hfull : arcLfuSize s = s.capacity
    · rw [if_pos hfull]
      have hbne : ¬ s.buckets = [] := by
        intro h0
        have hz : arcLfuSize s = 0 := by
          unfold arcLfuSize
          rw [h0]
          rfl
        omega
      obtain ⟨x, hx1, hx2, hx3, hx4, hx5, hx6, hx7, hx8, hx9, hx10, hx11, hx12, hx13, hx14⟩ :=
        arcLfuEvict_spec W hbne
      refine ⟨hx5, hx6, hx7, (List.nodup_cons.mp hx3).2, hx8, hx9, ?_, ?_, hx14⟩
      · show arcLfuSize (arcLfuEvictLeastFrequent s)
            ≤ (arcLfuEvictLeastFrequent s).capacity - 1
        rw [hx12]
        omega
      · show (arcLfuEvictLeastFrequent s).ghost.length
            ≤ max (arcLfuEvictLeastFrequent s).ghostCapacity 1
        rw [hx13]
        exact hx11
    · rw [if_neg hfull]
      exact ⟨w1, w2, w3, w4, w5, w6, by show arcLfuSize s ≤ s.capacity - 1; omega, w8, w9⟩

theorem arcLfuStepD_WF (op : ArcSubOp K V) (s : ArcLfu K V) (W : ArcLfuWF s) :
    ArcLfuWF (arcLfuStepD op s) := by
  cases op with
  | put k v =>
      have W1 := arcLfuCheckGhost_WF k W
      have hkg : k ∉ ((arcLfuCheckGhost k s).2).ghost :=
        (arcLfuCheckGhost_spec k s W.2.2.2.2.1).2.2.2.2.2.2.1
      exact arcLfuPut_WF k v W1 hkg
  | get k => exact arcLfuGet_WF k W
  | checkGhost k => exact arcLfuCheckGhost_WF k W
  | increaseCapacity => exact arcLfuInc_WF W
  | decreaseCapacity => exact arcLfuDec_WF W

theorem arcLfuRunD_WF (ops : List (ArcSubOp K V)) :
    ∀ s : ArcLfu K V, ArcLfuWF s → ArcLfuWF (arcLfuRunD ops s) := by
  induction ops with
  | nil => exact fun s h => h
  | cons op ops ih =>
      intro s h
      exact ih (arcLfuStepD op s) (arcLfuStepD_WF op s h)

theorem arcLfuInit_WF (c t : Nat) : ArcLfuWF (arcLfuInit c t : ArcLfu K V) :=
  ⟨List.nodup_nil, fun b hb => absurd hb (List.not_mem_nil b),
   fun b hb => absurd hb (List.not_mem_nil b), List.nodup_nil, List.nodup_nil,
   fun y hy => absurd hy (List.not_mem_nil y), Nat.zero_le c, Nat.zero_le _,
   fun h => absurd rfl h⟩

/-- Claim C8, counterexample to the literal reading: driving an
`ArcLruCache` directly (a `put` of a key that still sits in the ghost list,
without the coordinator's preceding `checkGhost`) leaves key 1 both live
and ghost, so "every key is in exactly one of {live, ghost, absent}" fails
for raw operation sequences. -/
theorem claim_C8_counterexample :
    1 ∈ arcLruRawScen.main.map Prod.fst ∧ 1 ∈ arcLruRawScen.ghost := by
  decide

/-- Claim C8 (amended): for every capacity, threshold and sequence of
operations under the coordinator's discipline (every `put k` immediately
preceded by `checkGhost k`, exactly as `ArcCache::put`/`get` drive the two
sub-caches), both ARC sub-caches keep the live and ghost key sets
disjoint, the live size at most the live capacity, and the ghost size at
most `max ghostCapacity 1` (one ghost entry can outlive a ghost capacity
of 0, since eviction appends to the ghost list after the guarded
`removeOldestGhost`). -/
theorem claim_C8_sub_invariants (c t : Nat) (ops : List (ArcSubOp Nat Nat)) :
    (∀ k, k ∈ (arcLruRunD ops (arcLruInit c t)).main.map Prod.fst
        → k ∉ (arcLruRunD ops (arcLruInit c t)).ghost)
    ∧ (arcLruRunD ops (arcLruInit c t)).main.length
        ≤ (arcLruRunD ops (arcLruInit c t)).capacity
    ∧ (arcLruRunD ops (arcLruInit c t)).ghost.length
        ≤ max (arcLruRunD ops (arcLruInit c t)).ghostCapacity 1
    ∧ (∀ k, k ∈ arcLfuKeys (arcLfuRunD ops (arcLfuInit c t))
        → k ∉ (arcLfuRunD ops (arcLfuInit c t)).ghost)
    ∧ arcLfuSize (arcLfuRunD ops (arcLfuInit c t))
        ≤ (arcLfuRunD ops (arcLfuInit c t)).capacity
    ∧ (arcLfuRunD ops (arcLfuInit c t)).ghost.length
        ≤ max (arcLfuRunD ops (arcLfuInit c t)).ghostCapacity 1 := by
  have W1 := arcLruRunD_WF ops (arcLruInit c t) (arcLruInit_WF c t)
  have W2 := arcLfuRunD_WF ops (arcLfuInit c t) (arcLfuInit_WF c t)
  exact ⟨W1.2.2.1, W1.2.2.2.1, W1.2.2.2.2, W2.2.2.2.2.2.1,
    W2.2.2.2.2.2.2.1, W2.2.2.2.2.2.2.2.1⟩

/-! ### Capacity frame lemmas for the ARC coordinator (claim C5) -/

theorem arcLruEvict_capacity (s : ArcLru K V) :
    (arcLruEvictLeastRecent s).capacity = s.capacity := by
  unfold arcLruEvictLeastRecent
  split <;> rfl

theorem arcLfuEvict_capacity (s : ArcLfu K V) :
    (arcLfuEvictLeastFrequent s).capacity = s.capacity := by
  unfold arcLfuEvictLeastFrequent
  split
  · rfl
  · split <;> rfl

theorem arcLruDec_success (s : ArcLru K V) :
    ((arcLruDecreaseCapacity s).1 = true ↔ ¬ s.capacity = 0)
    ∧ ((¬ s.capacity = 0) → (arcLruDecreaseCapacity s).2.capacity = s.capacity - 1)
    ∧ (s.capacity = 0 → (arcLruDecreaseCapacity s).2 = s) := by
  unfold arcLruDecreaseCapacity
  by_cases h : s.capacity = 0
  · rw [if_pos h]
    exact ⟨by simp [h], fun hh => absurd h hh, fun _ => rfl⟩
  · rw [if_neg h]
    refine ⟨by simp [h], fun _ => ?_, fun hh => absurd hh h⟩
    show (if s.main.length = s.capacity then arcLruEvictLeastRecent s else s).capacity - 1
        = s.capacity - 1
    split
    · rw [arcLruEvict_capacity]
    · rfl

theorem arcLfuDec_success (s : ArcLfu K V) :
    ((arcLfuDecreaseCapacity s).1 = true ↔ ¬ s.capacity = 0)
    ∧ ((¬ s.capacity = 0) → (arcLfuDecreaseCapacity s).2.capacity = s.capacity - 1)
    ∧ (s.capacity = 0 → (arcLfuDecreaseCapacity s).2 = s) := by
  unfold arcLfuDecreaseCapacity
  by_cases h : s.capacity = 0
  · rw [if_pos h]
    exact ⟨by simp [h], fun hh => absurd h hh, fun _ => rfl⟩
  · rw [if_neg h]
    refine ⟨by simp [h], fun _ => ?_, fun hh => absurd hh h⟩
    show (if arcLfuSize s = s.capacity then arcLfuEvictLeastFrequent s else s).capacity - 1
        = s.capacity - 1
    split
    · rw [arcLfuEvict_capacity]
    · rfl

theorem arcLruPut_capacity (k : K) (v : V) (s : ArcLru K V) :
    (arcLruPut k v s).2.capacity = s.capacity := by
  unfold arcLruPut
  by_cases h : s.capacity = 0
  · rw [if_pos h]
  · rw [if_neg h]
    cases hf : arcLruFind s k with
    | some pr => rfl
    | none =>
        show (if s.main.length ≥ s.capacity then arcLruEvictLeastRecent s else s).capacity
            = s.capacity
        split
        · exact arcLruEvict_capacity s
        · rfl

theorem arcLruGet_capacity (k : K) (s : ArcLru K V) :
    (arcLruGet k s).2.capacity = s.capacity := by
  unfold arcLruGet
  cases hf : arcLruFind s k with
  | some pr => rfl
  | none => rfl

theorem arcLfuPut_capacity (k : K) (v : V) (s : ArcLfu K V) :
    (arcLfuPut k v s).2.capacity = s.capacity := by
  unfold arcLfuPut
  by_cases h : s.capacity = 0
  · rw [if_pos h]
  · rw [if_neg h]
    cases hf : arcLfuFind s k with
    | some pr => rfl
    | none =>
        show (arcLfuAddNewNode k v s).capacity = s.capacity
        unfold arcLfuAddNewNode
        show (if arcLfuSize s ≥ s.capacity then arcLfuEvictLeastFrequent s else s).capacity
            = s.capacity
        split
        · exact arcLfuEvict_capacity s
        · rfl

theorem arcLfuGet_capacity (k : K) (s : ArcLfu K V) :
    (arcLfuGet k s).2.capacity = s.capacity := by
  unfold arcLfuGet
  cases hf : arcLfuFind s k with
  | some pr => rfl
  | none => rfl

theorem arcPut_capacity (k : K) (v : V) (s : ArcCache K V) :
    (arcPut k v s).lru.capacity = (checkGhostCaches k s).2.lru.capacity
    ∧ (arcPut k v s).lfu.capacity = (checkGhostCaches k s).2.lfu.capacity := by
  unfold arcPut
  by_cases hg : (checkGhostCaches k s).1
  · simp [hg, arcLruPut_capacity]
  · by_cases hp : (arcLruPut k v (checkGhostCaches k s).2.lru).1
    · simp [hg, hp, arcLruPut_capacity, arcLfuPut_capacity]
    · simp [hg, hp, arcLruPut_capacity]

theorem arcGet_capacity (k : K) (s : ArcCache K V) :
    (arcGet k s).2.lru.capacity = (checkGhostCaches k s).2.lru.capacity
    ∧ (arcGet k s).2.lfu.capacity = (checkGhostCaches k s).2.lfu.capacity := by
  simp only [arcGet]
  cases hm : arcLruGet k (checkGhostCaches k s).2.lru with
  | mk o lru1 =>
      have hcap : lru1.capacity = (checkGhostCaches k s).2.lru.capacity := by
        have hq := arcLruGet_capacity k (checkGhostCaches k s).2.lru
        rw [hm] at hq
        exact hq
      cases o with
      | some pr =>
          obtain ⟨v2, b⟩ := pr
          by_cases hb : b
          · simp [hb, hcap, arcLfuPut_capacity]
          · simp [hb, hcap]
      | none => simp [hcap, arcLfuGet_capacity]

/-- Claim C5, counterexample to the "symmetrically" part: after
`put(1), put(2), put(3)` on an `ArcCache` of capacity 2, key 1 sits in both
ghost lists; the `get(1)` removes it from the T1 ghost only (the `else if`
in `checkGhostCaches` never consults the T2 ghost on a T1 ghost hit), and
only the T1/T2 capacities are exchanged (3 and 1). -/
theorem claim_C5_counterexample :
    1 ∈ arcScenA.lru.ghost ∧ 1 ∈ arcScenA.lfu.ghost
    ∧ ¬ 1 ∈ arcScenB.lru.ghost ∧ 1 ∈ arcScenB.lfu.ghost
    ∧ arcScenB.lru.capacity = 3 ∧ arcScenB.lfu.capacity = 1 := by
  decide

/-- Claim C5 (amended): `ArcCache::put` and `ArcCache::get` first run
`checkGhostCaches`, in which the T1 (recency) ghost has priority: when `k`
is in the T1 ghost it is removed from it and the T2 side is exactly
`decreaseCapacity`d — its own ghost is NOT consulted, even when `k` is
also there — with the T1 capacity growing by one exactly when that
shrink succeeds; `decreaseCapacity` fails precisely when the capacity is
already 0 (evicting one entry first when the cache is full).  The
symmetric exchange happens only when `k` is in the T2 ghost but not the
T1 ghost.  The put/get that follows never changes the capacities again. -/
theorem claim_C5_ghost_rebalance (k : K) (v : V) (s : ArcCache K V)
    (hnd1 : s.lru.ghost.Nodup) (hnd2 : s.lfu.ghost.Nodup) :
    (k ∈ s.lru.ghost →
      (checkGhostCaches k s).1 = true
      ∧ (checkGhostCaches k s).2.lru.ghost = eraseKey s.lru.ghost k
      ∧ ¬ k ∈ (checkGhostCaches k s).2.lru.ghost
      ∧ (checkGhostCaches k s).2.lfu = (arcLfuDecreaseCapacity s.lfu).2
      ∧ (¬ s.lfu.capacity = 0 →
          (checkGhostCaches k s).2.lru.capacity = s.lru.capacity + 1
          ∧ (checkGhostCaches k s).2.lfu.capacity = s.lfu.capacity - 1)
      ∧ (s.lfu.capacity = 0 →
          (checkGhostCaches k s).2.lru.capacity = s.lru.capacity
          ∧ (checkGhostCaches k s).2.lfu = s.lfu))
    ∧ (¬ k ∈ s.lru.ghost → k ∈ s.lfu.ghost →
      (checkGhostCaches k s).1 = true
      ∧ (checkGhostCaches k s).2.lfu.ghost = eraseKey s.lfu.ghost k
      ∧ ¬ k ∈ (checkGhostCaches k s).2.lfu.ghost
      ∧ (checkGhostCaches k s).2.lru = (arcLruDecreaseCapacity s.lru).2
      ∧ (¬ s.lru.capacity = 0 →
          (checkGhostCaches k s).2.lfu.capacity = s.lfu.capacity + 1
          ∧ (checkGhostCaches k s).2.lru.capacity = s.lru.capacity - 1)
      ∧ (s.lru.capacity = 0 →
          (checkGhostCaches k s).2.lfu.capacity = s.lfu.capacity
          ∧ (checkGhostCaches k s).2.lru = s.lru))
    ∧ ((arcLruDecreaseCapacity s.lru).1 = true ↔ ¬ s.lru.capacity = 0)
    ∧ ((arcLfuDecreaseCapacity s.lfu).1 = true ↔ ¬ s.lfu.capacity = 0)
    ∧ (arcPut k v s).lru.capacity = (checkGhostCaches k s).2.lru.capacity
    ∧ (arcPut k v s).lfu.capacity = (checkGhostCaches k s).2.lfu.capacity
    ∧ (arcGet k s).2.lru.capacity = (checkGhostCaches k s).2.lru.capacity
    ∧ (arcGet k s).2.lfu.capacity = (checkGhostCaches k s).2.lfu.capacity := by
  refine ⟨?_, ?_, (arcLruDec_success s.lru).1, (arcLfuDec_success s.lfu).1,
    (arcPut_capacity k v s).1, (arcPut_capacity k v s).2,
    (arcGet_capacity k s).1, (arcGet_capacity k s).2⟩
  · intro hk1
    have hc1 : arcLruCheckGhost k s.lru
        = (true, { s.lru with ghost := eraseKey s.lru.ghost k }) := by
      unfold arcLruCheckGhost
      rw [if_pos (List.any_eq_true.mpr ⟨k, hk1, by simp⟩)]
    have hgc : checkGhostCaches k s
        = (true, { lru := if (arcLfuDecreaseCapacity s.lfu).1
                          then arcLruIncreaseCapacity
                            { s.lru with ghost := eraseKey s.lru.ghost k }
                          else { s.lru with ghost := eraseKey s.lru.ghost k },
                   lfu := (arcLfuDecreaseCapacity s.lfu).2 }) := by
      unfold checkGhostCaches
      rw [hc1]
      rfl
    refine ⟨by rw [hgc], ?_, ?_, by rw [hgc], ?_, ?_⟩
    · rw [hgc]
      show (if (arcLfuDecreaseCapacity s.lfu).1 = true
            then arcLruIncreaseCapacity { s.lru with ghost := eraseKey s.lru.ghost k }
            else { s.lru with ghost := eraseKey s.lru.ghost k }).ghost
          = eraseKey s.lru.ghost k
      split <;> rfl
    · rw [hgc]
      show ¬ k ∈ (if (arcLfuDecreaseCapacity s.lfu).1 = true
            then arcLruIncreaseCapacity { s.lru with ghost := eraseKey s.lru.ghost k }
            else { s.lru with ghost := eraseKey s.lru.ghost k }).ghost
      split
      · exact not_mem_eraseKey_self hnd1
      · exact not_mem_eraseKey_self hnd1
    · intro hcap
      have hd1 : (arcLfuDecreaseCapacity s.lfu).1 = true :=
        (arcLfuDec_success s.lfu).1.mpr hcap
      constructor
      · rw [hgc]
        show (if (arcLfuDecreaseCapacity s.lfu).1 = true
              then arcLruIncreaseCapacity { s.lru with ghost := eraseKey s.lru.ghost k }
              else { s.lru with ghost := eraseKey s.lru.ghost k }).capacity
            = s.lru.capacity + 1
        rw [if_pos hd1]
        rfl
      · rw [hgc]
        exact (arcLfuDec_success s.lfu).2.1 hcap
    · intro hcap0
      have hd : arcLfuDecreaseCapacity s.lfu = (false, s.lfu) := by
        unfold arcLfuDecreaseCapacity
        rw [if_pos hcap0]
      constructor
      · rw [hgc, hd]
        rfl
      · rw [hgc, hd]
  · intro hk1 hk2
    have hany : ¬ s.lru.ghost.any (fun x => decide (x = k)) = true := by
      intro h
      obtain ⟨x, hx, hxk⟩ := List.any_eq_true.mp h
      exact hk1 ((show x = k by simpa using hxk) ▸ hx)
    have hc1 : arcLruCheckGhost k s.lru = (false, s.lru) := by
      unfold arcLruCheckGhost
      rw [if_neg hany]
    have hc2 : arcLfuCheckGhost k s.lfu
        = (true, { s.lfu with ghost := eraseKey s.lfu.ghost k }) := by
      unfold arcLfuCheckGhost
      rw [if_pos (List.any_eq_true.mpr ⟨k, hk2, by simp⟩)]
    have hgc : checkGhostCaches k s
        = (true, { lru := (arcLruDecreaseCapacity s.lru).2,
                   lfu := if (arcLruDecreaseCapacity s.lru).1
                          then arcLfuIncreaseCapacity
                            { s.lfu with ghost := eraseKey s.lfu.ghost k }
                          else { s.lfu with ghost := eraseKey s.lfu.ghost k } }) := by
      unfold checkGhostCaches
      rw [hc1, hc2]
      rfl
    refine ⟨by rw [hgc], ?_, ?_, by rw [hgc], ?_, ?_⟩
    · rw [hgc]
      show (if (arcLruDecreaseCapacity s.lru).1 = true
            then arcLfuIncreaseCapacity { s.lfu with ghost := eraseKey s.lfu.ghost k }
            else { s.lfu with ghost := eraseKey s.lfu.ghost k }).ghost
          = eraseKey s.lfu.ghost k
      split <;> rfl
    · rw [hgc]
      show ¬ k ∈ (if (arcLruDecreaseCapacity s.lru).1 = true
            then arcLfuIncreaseCapacity { s.lfu with ghost := eraseKey s.lfu.ghost k }
            else { s.lfu with ghost := eraseKey s.lfu.ghost k }).ghost
      split
      · exact not_mem_eraseKey_self hnd2
      · exact not_mem_eraseKey_self hnd2
    · intro hcap
      have hd1 : (arcLruDecreaseCapacity s.lru).1 = true :=
        (arcLruDec_success s.lru).1.mpr hcap
      constructor
      · rw [hgc]
        show (if (arcLruDecreaseCapacity s.lru).1 = true
              then arcLfuIncreaseCapacity { s.lfu with ghost := eraseKey s.lfu.ghost k }
              else { s.lfu with ghost := eraseKey s.lfu.ghost k }).capacity
            = s.lfu.capacity + 1
        rw [if_pos hd1]
        rfl
      · rw [hgc]
        exact (arcLruDec_success s.lru).2.1 hcap
    · intro hcap0
      have hd : arcLruDecreaseCapacity s.lru = (false, s.lru) := by
        unfold arcLruDecreaseCapacity
        rw [if_pos hcap0]
      constructor
      · rw [hgc, hd]
        rfl
      · rw [hgc, hd]

/-- Witness for the amended claim C5 at a concrete state: in `arcScenA`
key 1 is a T1 ghost hit, and the rebalancing theorem applies. -/
theorem claim_C5_witness :
    arcScenA.lru.ghost.Nodup ∧ arcScenA.lfu.ghost.Nodup
    ∧ (1 : Nat) ∈ arcScenA.lru.ghost
    ∧ (checkGhostCaches 1 arcScenA).1 = true :=
  ⟨by decide, by decide, by decide,
    ((claim_C5_ghost_rebalance 1 0 arcScenA (by decide) (by decide)).1 (by decide)).1⟩

end CacheSys
